import Mathlib

/-!
Verification development for an intraday volume-profile trading system.

The embedded code consists of:
* `SessionPOC` — the session volume-profile engine
  (`indicators/session_poc.py`, class `SessionPOCIndicator`): a per-session
  histogram of traded volume by price bucket, with derived point of control
  (POC) and value area (VAH/VAL).
* `IB` — the initial-balance tracker (`indicators/initial_balance.py`,
  class `InitialBalanceIndicator`).
* `Engine` — the decision engine of `main.py`
  (class `IBPOCMeanReversionStrategy`): phase state machine, entry
  evaluation/scoring, position sizing and position management.

Numbers are modelled by `ℚ` (the Python source computes with floats; all
behaviours studied here are driven by comparisons and exact arithmetic on
tick-aligned prices and integer volumes, so `ℚ` is the faithful exact model).
Python dictionaries are modelled by insertion-ordered association lists,
which preserves both key-insertion order (the iteration order of a Python
dict) and key uniqueness.  Time-of-day values are minutes after midnight
(`9:30` = `570`), dates are integers.
-/

/-- Python's built-in `round`: round half to even (banker's rounding),
returning an integer.  Used by `_round_to_tick` in `session_poc.py`. -/
def pyRound (q : ℚ) : ℤ :=
  if q - ⌊q⌋ < 1/2 then ⌊q⌋
  else if 1/2 < q - ⌊q⌋ then ⌊q⌋ + 1
  else if 2 ∣ ⌊q⌋ then ⌊q⌋ else ⌊q⌋ + 1

/-- Python's `int(...)` applied to a rational: truncation toward zero.
`Rat.num / Rat.den` with Lean's `Int` T-division is exactly that. -/
def pyTrunc (q : ℚ) : ℤ := q.num / (q.den : ℤ)

theorem pyRound_ge_floor (q : ℚ) : ⌊q⌋ ≤ pyRound q := by
  unfold pyRound
  split_ifs <;> omega

theorem pyRound_le_floor_add_one (q : ℚ) : pyRound q ≤ ⌊q⌋ + 1 := by
  unfold pyRound
  split_ifs <;> omega

theorem pyRound_mono {q r : ℚ} (h : q ≤ r) : pyRound q ≤ pyRound r := by
  rcases lt_or_eq_of_le (Int.floor_le_floor h) with hf | hf
  · calc pyRound q ≤ ⌊q⌋ + 1 := pyRound_le_floor_add_one q
      _ ≤ ⌊r⌋ := by omega
      _ ≤ pyRound r := pyRound_ge_floor r
  · unfold pyRound
    have hfr : (q - ⌊q⌋ : ℚ) ≤ r - ⌊r⌋ := by
      rw [hf] at *
      linarith
    rw [hf]
    split_ifs with h1 h2 h3 h4 h5 h6 h7 h8 <;> first
      | omega
      | (exfalso; linarith)

theorem pyRound_intCast (n : ℤ) : pyRound (n : ℚ) = n := by
  unfold pyRound
  rw [Int.floor_intCast]
  norm_num

namespace SessionPOC

/-- A price/volume bar as consumed by the indicators (the `open` field of the
source `TradeBar` is not read by any embedded component, so it is omitted). -/
structure Bar where
  high : ℚ
  low : ℚ
  close : ℚ
  volume : ℚ
deriving Repr, DecidableEq

/-- Constructor defaults used by the strategy: `SessionPOCIndicator(tick_size=0.25)`
with `value_area_pct=0.70` and session start 9:30. -/
def tick_size : ℚ := 1/4

/-- Default `value_area_pct = 0.70`. -/
def value_area_pct : ℚ := 7/10

/-- Session start 9:30 AM, in minutes after midnight. -/
def session_start : ℚ := 570

/-- State of `SessionPOCIndicator`.  `volume_profile` is the `_volume_profile`
dict as an insertion-ordered association list from price level to volume. -/
structure State where
  volume_profile : List (ℚ × ℚ)
  total_volume : ℚ
  session_date : Option ℤ
  poc : Option ℚ
  poc_volume : ℚ
  vah : Option ℚ
  val : Option ℚ
  is_ready : Bool
  bar_count : ℕ
deriving Repr, DecidableEq

/-- Initial state as set up by `__init__`. -/
def initState : State :=
  { volume_profile := []
    total_volume := 0
    session_date := none
    poc := none
    poc_volume := 0
    vah := none
    val := none
    is_ready := false
    bar_count := 0 }

/-- The `reset` method (it does not touch `_session_date`). -/
def reset (s : State) : State :=
  { s with volume_profile := [], total_volume := 0, poc := none, poc_volume := 0,
           vah := none, val := none, is_ready := false, bar_count := 0 }

/-- The `_round_to_tick` method: `round(price / tick_size) * tick_size`. -/
def roundToTick (p : ℚ) : ℚ := pyRound (p / tick_size) * tick_size

/-- Number of tick levels spanned by the rounded `[low, high]` range. -/
def levelCount (low high : ℚ) : ℕ :=
  (pyRound (high / tick_size) - pyRound (low / tick_size) + 1).toNat

/-- The `price_levels` list built by the while-loop in `_distribute_bar_volume`:
starting from the rounded low bucket it appends `current_price` and advances by
`_round_to_tick(current_price + tick_size)`.  Every level is an integer
multiple of `tick_size`, so the re-rounding in the loop is the identity and the
levels form the arithmetic progression modelled here. -/
def priceLevels (low high : ℚ) : List ℚ :=
  (List.range (levelCount low high)).map
    (fun (i : ℕ) => (pyRound (low / tick_size) + (i : ℤ)) * tick_size)

/-- Per-level weight, `1.0 / (1.0 + distance / tick_size)` where `distance`
is `abs(price - typical_bucket)`. -/
def weight (tb p : ℚ) : ℚ := 1 / (1 + |p - tb| / tick_size)

/-- Dictionary read with default 0: `self._volume_profile.get(price, 0)`. -/
def lookupVol (profile : List (ℚ × ℚ)) (p : ℚ) : ℚ :=
  ((profile.find? (fun e => e.1 = p)).map Prod.snd).getD 0

/-- Dictionary write `profile[p] = profile.get(p, 0) + d`: updates the entry
in place if the key exists, otherwise appends it (Python dicts keep insertion
order). -/
def addVol : List (ℚ × ℚ) → ℚ → ℚ → List (ℚ × ℚ)
  | [], p, d => [(p, d)]
  | (q, v) :: t, p, d => if q = p then (q, v + d) :: t else (q, v) :: addVol t p d

/-- The `_distribute_bar_volume` method. -/
def distributeBarVolume (s : State) (bar : Bar) : State :=
  if bar.volume ≤ 0 then s
  else
    let levels := priceLevels bar.low bar.high
    if levels = [] then s
    else
      let tb := roundToTick ((bar.high + bar.low + bar.close) / 3)
      let totalW := (levels.map (weight tb)).sum
      let profile2 :=
        levels.foldl (fun pr p => addVol pr p (weight tb p / totalW * bar.volume))
          s.volume_profile
      { s with volume_profile := profile2, total_volume := s.total_volume + bar.volume }

/-- One iteration of the `_calculate_poc` loop: replace the running
`(max_volume, poc_price)` pair when the entry's volume strictly exceeds it. -/
def pocStep (acc : ℚ × Option ℚ) (e : ℚ × ℚ) : ℚ × Option ℚ :=
  if e.2 > acc.1 then (e.2, some e.1) else acc

/-- The `_calculate_poc` method: iterate the dict in insertion order keeping
the first entry whose volume strictly exceeds the running maximum
(`max_volume` starts at 0, `poc_price` at `None`). -/
def calculatePoc (s : State) : State :=
  if s.volume_profile = [] then s
  else
    let r := s.volume_profile.foldl pocStep ((0 : ℚ), (none : Option ℚ))
    { s with poc := r.2, poc_volume := r.1 }

/-- The while-loop of `_calculate_value_area`, expanding the index window
`[lo, hi]` over `sorted` one bucket at a time.  The loop body either breaks
or grows the window, so `sorted.length` steps of fuel always suffice; the
fuel-0 branch is unreachable for the call made by `calculateValueArea`. -/
def vaExpand (sorted : List ℚ) (volAt : ℚ → ℚ) (target : ℚ) :
    ℕ → ℚ → ℕ → ℕ → ℕ × ℕ
  | 0, _, lo, hi => (lo, hi)
  | fuel+1, acc, lo, hi =>
    if acc < target then
      if hi + 1 < sorted.length then
        if 1 ≤ lo then
          if volAt (sorted.getD (hi+1) 0) ≥ volAt (sorted.getD (lo-1) 0) then
            vaExpand sorted volAt target fuel (acc + volAt (sorted.getD (hi+1) 0)) lo (hi+1)
          else
            vaExpand sorted volAt target fuel (acc + volAt (sorted.getD (lo-1) 0)) (lo-1) hi
        else vaExpand sorted volAt target fuel (acc + volAt (sorted.getD (hi+1) 0)) lo (hi+1)
      else
        if 1 ≤ lo then
          vaExpand sorted volAt target fuel (acc + volAt (sorted.getD (lo-1) 0)) (lo-1) hi
        else (lo, hi)
    else (lo, hi)

/-- The `_calculate_value_area` method. -/
def calculateValueArea (s : State) : State :=
  if s.volume_profile = [] then s
  else if s.total_volume = 0 then s
  else
    match s.poc with
    | none => s
    | some pocP =>
      let target := s.total_volume * value_area_pct
      let sorted := List.insertionSort (· ≤ ·) (s.volume_profile.map Prod.fst)
      match sorted.findIdx? (fun p => p = pocP) with
      | none =>
        match s.volume_profile.map Prod.fst with
        | [] => s
        | k :: ks => { s with vah := some (ks.foldl max k), val := some (ks.foldl min k) }
      | some pidx =>
        let volAt := lookupVol s.volume_profile
        let w := vaExpand sorted volAt target sorted.length (volAt pocP) pidx pidx
        { s with vah := some (sorted.getD w.2 0), val := some (sorted.getD w.1 0) }

/-- Session-change check at the top of `update`: on a new calendar date at or
after session start, `reset()` and record the new `_session_date`. -/
def sessionRollover (s : State) (date : ℤ) (tod : ℚ) : State :=
  if s.session_date ≠ some date ∧ session_start ≤ tod then
    { reset s with session_date := some date }
  else s

/-- The `_bar_count += 1` step of `update`. -/
def bumpBarCount (s : State) : State := { s with bar_count := s.bar_count + 1 }

/-- The readiness step of `update`: ready once at least 5 bars were processed
and the POC is defined. -/
def markReady (s : State) : State :=
  if 5 ≤ s.bar_count ∧ s.poc ≠ none then { s with is_ready := true } else s

/-- The `update` method (`current_time` split into `date` and minutes `tod`):
session rollover, then — only for bars at/after session start — bar count,
volume distribution, POC and value-area recomputation, readiness. -/
def update (s : State) (bar : Bar) (date : ℤ) (tod : ℚ) : State :=
  if tod < session_start then sessionRollover s date tod
  else
    markReady (calculateValueArea (calculatePoc (distributeBarVolume
      (bumpBarCount (sessionRollover s date tod)) bar)))

/-- Sum of the accumulated volumes of all buckets of a profile. -/
def sumVol (profile : List (ℚ × ℚ)) : ℚ := (profile.map Prod.snd).sum

theorem sumVol_addVol (pr : List (ℚ × ℚ)) (p d : ℚ) :
    sumVol (addVol pr p d) = sumVol pr + d := by
  induction pr with
  | nil => simp [addVol, sumVol]
  | cons e t ih =>
    obtain ⟨q, v⟩ := e
    by_cases h : q = p
    · simp [addVol, h, sumVol]
      ring
    · simp [addVol, h, sumVol] at *
      linarith

theorem sumVol_foldl_addVol (levels : List ℚ) (f : ℚ → ℚ) :
    ∀ pr : List (ℚ × ℚ),
      sumVol (levels.foldl (fun pr p => addVol pr p (f p)) pr)
        = sumVol pr + (levels.map f).sum := by
  induction levels with
  | nil => intro pr; simp
  | cons p t ih =>
    intro pr
    simp only [List.foldl_cons, List.map_cons, List.sum_cons]
    rw [ih, sumVol_addVol]
    ring

theorem weight_pos (tb p : ℚ) : 0 < weight tb p := by
  unfold weight tick_size
  have h : (0 : ℚ) ≤ |p - tb| := abs_nonneg _
  positivity

theorem sum_weights_pos (tb : ℚ) {levels : List ℚ} (h : levels ≠ []) :
    0 < (levels.map (weight tb)).sum := by
  cases levels with
  | nil => exact absurd rfl h
  | cons p t =>
    simp only [List.map_cons, List.sum_cons]
    have h1 : 0 < weight tb p := weight_pos tb p
    have h2 : 0 ≤ (t.map (weight tb)).sum := by
      apply List.sum_nonneg
      intro x hx
      obtain ⟨y, _, rfl⟩ := List.mem_map.mp hx
      exact le_of_lt (weight_pos tb y)
    linarith

theorem sum_shares (tb V : ℚ) {levels : List ℚ} (h : levels ≠ []) :
    (levels.map
      (fun p => weight tb p / (levels.map (weight tb)).sum * V)).sum = V := by
  have hW : (levels.map (weight tb)).sum ≠ 0 := ne_of_gt (sum_weights_pos tb h)
  have he : (levels.map (fun p => weight tb p / (levels.map (weight tb)).sum * V))
      = levels.map (fun p => weight tb p * ((levels.map (weight tb)).sum⁻¹ * V)) := by
    apply List.map_congr_left
    intro x _
    rw [div_eq_mul_inv]
    ring
  rw [he, List.sum_map_mul_right]
  field_simp

theorem levelCount_pos {low high : ℚ} (h : low ≤ high) : 0 < levelCount low high := by
  have hm : pyRound (low / tick_size) ≤ pyRound (high / tick_size) := by
    apply pyRound_mono
    have ht : (0 : ℚ) < tick_size := by norm_num [tick_size]
    gcongr
  simp only [levelCount]
  omega

theorem priceLevels_length (low high : ℚ) :
    (priceLevels low high).length = levelCount low high := by
  unfold priceLevels
  rw [List.length_map, List.length_range]

theorem priceLevels_ne_nil {low high : ℚ} (h : low ≤ high) :
    priceLevels low high ≠ [] := by
  intro hcontra
  have h1 := levelCount_pos h
  have h2 := congrArg List.length hcontra
  rw [priceLevels_length] at h2
  simp at h2
  omega

theorem priceLevels_single {low high : ℚ} (h : low = high) :
    priceLevels low high = [roundToTick low] := by
  subst h
  have hc : levelCount low low = 1 := by
    simp only [levelCount]
    omega
  have h1 : List.range 1 = [0] := rfl
  simp only [priceLevels, hc, roundToTick, h1]
  simp

theorem calculatePoc_profile (s : State) :
    (calculatePoc s).volume_profile = s.volume_profile := by
  unfold calculatePoc
  split <;> rfl

theorem calculatePoc_total (s : State) :
    (calculatePoc s).total_volume = s.total_volume := by
  unfold calculatePoc
  split <;> rfl

theorem calculateValueArea_profile (s : State) :
    (calculateValueArea s).volume_profile = s.volume_profile := by
  simp only [calculateValueArea]
  repeat' split
  all_goals rfl

theorem calculateValueArea_total (s : State) :
    (calculateValueArea s).total_volume = s.total_volume := by
  simp only [calculateValueArea]
  repeat' split
  all_goals rfl

theorem markReady_profile (s : State) :
    (markReady s).volume_profile = s.volume_profile := by
  unfold markReady
  split <;> rfl

theorem distribute_sumVol (s : State) (bar : Bar)
    (hlh : bar.low ≤ bar.high) (hv : 0 < bar.volume) :
    sumVol (distributeBarVolume s bar).volume_profile
      = sumVol s.volume_profile + bar.volume ∧
    (distributeBarVolume s bar).total_volume = s.total_volume + bar.volume := by
  unfold distributeBarVolume
  have hnv : ¬ bar.volume ≤ 0 := not_le.mpr hv
  have hne : priceLevels bar.low bar.high ≠ [] := priceLevels_ne_nil hlh
  rw [if_neg hnv, if_neg hne]
  refine ⟨?_, rfl⟩
  rw [sumVol_foldl_addVol]
  rw [sum_shares _ _ hne]

end SessionPOC

/-- C2: for every bar with `low < high` and positive volume processed
mid-session (no session reset on this call, time at/after session start), a
single `update` changes the histogram by exactly `bar.volume` in total: the
normalized weights make the per-bucket deltas sum to the bar's volume. -/
theorem C2_update_volume_conservation (s : SessionPOC.State) (bar : SessionPOC.Bar)
    (date : ℤ) (tod : ℚ)
    (hdate : s.session_date = some date) (htod : SessionPOC.session_start ≤ tod)
    (hlh : bar.low < bar.high) (hv : 0 < bar.volume) :
    SessionPOC.sumVol (SessionPOC.update s bar date tod).volume_profile
      = SessionPOC.sumVol s.volume_profile + bar.volume := by
  unfold SessionPOC.update
  have h1 : ¬ (s.session_date ≠ some date ∧ SessionPOC.session_start ≤ tod) := by
    simp [hdate]
  have h2 : ¬ tod < SessionPOC.session_start := not_lt.mpr htod
  have hroll : SessionPOC.sessionRollover s date tod = s := by
    unfold SessionPOC.sessionRollover
    rw [if_neg h1]
  rw [if_neg h2, hroll, SessionPOC.markReady_profile,
    SessionPOC.calculateValueArea_profile, SessionPOC.calculatePoc_profile]
  exact (SessionPOC.distribute_sumVol (SessionPOC.bumpBarCount s) bar
    (le_of_lt hlh) hv).1

/-- Unfolding of `update` for a bar at/after session start. -/
theorem SessionPOC.update_in_session (s : SessionPOC.State) (bar : SessionPOC.Bar)
    (date : ℤ) (tod : ℚ) (htod : SessionPOC.session_start ≤ tod) :
    SessionPOC.update s bar date tod
      = SessionPOC.markReady (SessionPOC.calculateValueArea (SessionPOC.calculatePoc
          (SessionPOC.distributeBarVolume
            (SessionPOC.bumpBarCount (SessionPOC.sessionRollover s date tod)) bar))) := by
  unfold SessionPOC.update
  rw [if_neg (not_lt.mpr htod)]

/-- A bar whose high equals its low spans a single rounded bucket, and the
normalized weighting then assigns the whole bar volume to that bucket. -/
theorem SessionPOC.distribute_zero_range (s : SessionPOC.State) (bar : SessionPOC.Bar)
    (hhl : bar.high = bar.low) (hv : 0 < bar.volume) :
    SessionPOC.distributeBarVolume s bar
      = { s with
          volume_profile :=
            SessionPOC.addVol s.volume_profile (SessionPOC.roundToTick bar.low) bar.volume,
          total_volume := s.total_volume + bar.volume } := by
  unfold SessionPOC.distributeBarVolume
  have hl : SessionPOC.priceLevels bar.low bar.high = [SessionPOC.roundToTick bar.low] := by
    have h := @SessionPOC.priceLevels_single bar.low bar.high hhl.symm
    exact h
  have hne : SessionPOC.priceLevels bar.low bar.high ≠ [] := by
    rw [hl]
    simp
  rw [if_neg (not_le.mpr hv), if_neg hne, hl]
  have hw : SessionPOC.weight
      (SessionPOC.roundToTick ((bar.high + bar.low + bar.close) / 3))
      (SessionPOC.roundToTick bar.low) ≠ 0 :=
    ne_of_gt (SessionPOC.weight_pos _ _)
  simp only [List.foldl_cons, List.foldl_nil, List.map_cons, List.map_nil,
    List.sum_cons, List.sum_nil, add_zero]
  rw [div_self hw, one_mul]

/-- Witness for C2 at a concrete mid-session state and bar. -/
theorem C2_update_volume_conservation_witness :
    SessionPOC.sumVol (SessionPOC.update
        { SessionPOC.initState with session_date := some 0 }
        ⟨101, 100, 101, 4⟩ 0 600).volume_profile
      = SessionPOC.sumVol
          { SessionPOC.initState with session_date := some 0 }.volume_profile + 4 :=
  C2_update_volume_conservation _ _ _ _ rfl
    (by norm_num [SessionPOC.session_start]) (by norm_num) (by norm_num)

theorem SessionPOC.markReady_total (s : SessionPOC.State) :
    (SessionPOC.markReady s).total_volume = s.total_volume := by
  unfold SessionPOC.markReady
  split <;> rfl

/-- C4 counterexample: the claim says a bar with zero high-low range
contributes no volume-profile distribution and leaves histogram and POC
unchanged.  On the code, processing the zero-range bar
`high = low = close = 100, volume = 10` at the first session bar
(date 0, 9:30) puts the full volume 10 into bucket 100 and sets the POC,
changing both the histogram and the derived state. -/
theorem C4_counterexample :
    (SessionPOC.update SessionPOC.initState ⟨100, 100, 100, 10⟩ 0 570).volume_profile
        = [(100, 10)]
    ∧ SessionPOC.initState.volume_profile = []
    ∧ (SessionPOC.update SessionPOC.initState ⟨100, 100, 100, 10⟩ 0 570).poc = some 100
    ∧ SessionPOC.initState.poc = none := by
  have e1 : SessionPOC.update SessionPOC.initState ⟨100, 100, 100, 10⟩ 0 570
      = { volume_profile := [(100, 10)], total_volume := 10, session_date := some 0,
          poc := some 100, poc_volume := 10, vah := some 100, val := some 100,
          is_ready := false, bar_count := 1 } := by
    rw [SessionPOC.update_in_session _ _ _ _ (by norm_num [SessionPOC.session_start])]
    have hroll : SessionPOC.sessionRollover SessionPOC.initState 0 570
        = { SessionPOC.initState with session_date := some 0 } := by
      simp [SessionPOC.sessionRollover, SessionPOC.initState, SessionPOC.reset,
        SessionPOC.session_start]
    rw [hroll, SessionPOC.distribute_zero_range _ _ rfl (by norm_num)]
    norm_num [SessionPOC.bumpBarCount, SessionPOC.initState, SessionPOC.addVol,
      SessionPOC.roundToTick, pyRound, SessionPOC.tick_size,
      SessionPOC.calculatePoc, SessionPOC.pocStep, SessionPOC.calculateValueArea,
      SessionPOC.markReady, SessionPOC.lookupVol, List.find?, List.findIdx?,
      List.insertionSort, List.orderedInsert, SessionPOC.vaExpand,
      SessionPOC.value_area_pct]
  exact ⟨by rw [e1], rfl, by rw [e1], rfl⟩

/-- C4 (amended): only bars with non-positive volume are guarded away.  A bar
with `high = low` and positive volume processed mid-session adds its full
volume to the single bucket at the tick-rounded bar price (and the derived
POC/value-area state is then recomputed from the changed histogram). -/
theorem C4_amended_zero_range_single_bucket (s : SessionPOC.State)
    (bar : SessionPOC.Bar) (date : ℤ) (tod : ℚ)
    (hdate : s.session_date = some date) (htod : SessionPOC.session_start ≤ tod)
    (hhl : bar.high = bar.low) (hv : 0 < bar.volume) :
    (SessionPOC.update s bar date tod).volume_profile
        = SessionPOC.addVol s.volume_profile (SessionPOC.roundToTick bar.low) bar.volume
    ∧ (SessionPOC.update s bar date tod).total_volume
        = s.total_volume + bar.volume := by
  rw [SessionPOC.update_in_session _ _ _ _ htod]
  have hroll : SessionPOC.sessionRollover s date tod = s := by
    unfold SessionPOC.sessionRollover
    simp [hdate]
  rw [hroll, SessionPOC.distribute_zero_range _ _ hhl hv]
  constructor
  · rw [SessionPOC.markReady_profile, SessionPOC.calculateValueArea_profile,
      SessionPOC.calculatePoc_profile]
    rfl
  · rw [SessionPOC.markReady_total, SessionPOC.calculateValueArea_total,
      SessionPOC.calculatePoc_total]
    rfl

/-- Witness for the amended C4 at a concrete state and zero-range bar. -/
theorem C4_amended_zero_range_single_bucket_witness :
    (SessionPOC.update { SessionPOC.initState with session_date := some 3 }
        ⟨4500, 4500, 4500, 7⟩ 3 600).volume_profile
      = SessionPOC.addVol
          { SessionPOC.initState with session_date := some 3 }.volume_profile
          (SessionPOC.roundToTick 4500) 7
    ∧ (SessionPOC.update { SessionPOC.initState with session_date := some 3 }
        ⟨4500, 4500, 4500, 7⟩ 3 600).total_volume
      = { SessionPOC.initState with session_date := some 3 }.total_volume + 7 :=
  C4_amended_zero_range_single_bucket _ _ _ _ rfl
    (by norm_num [SessionPOC.session_start]) rfl (by norm_num)

/-- If no remaining entry strictly exceeds the running maximum, the
`_calculate_poc` fold leaves the accumulator unchanged. -/
theorem SessionPOC.pocFold_stable (l : List (ℚ × ℚ)) :
    ∀ mv : ℚ, ∀ pp : Option ℚ, (∀ e ∈ l, e.2 ≤ mv) →
      l.foldl SessionPOC.pocStep (mv, pp) = (mv, pp) := by
  induction l with
  | nil => intro mv pp _; rfl
  | cons e t ih =>
    intro mv pp h
    have he : e.2 ≤ mv := h e (List.mem_cons_self e t)
    have hstep : SessionPOC.pocStep (mv, pp) e = (mv, pp) := by
      unfold SessionPOC.pocStep
      rw [if_neg (not_lt.mpr he)]
    rw [List.foldl_cons, hstep]
    exact ih mv pp (fun x hx => h x (List.mem_cons_of_mem e hx))

/-- Characterization of the `_calculate_poc` fold: if some entry strictly
exceeds the initial running maximum, the fold returns the first entry
attaining the overall maximum volume, together with that volume. -/
theorem SessionPOC.pocFold_spec (l : List (ℚ × ℚ)) :
    ∀ mv : ℚ, ∀ pp : Option ℚ, (∃ e ∈ l, mv < e.2) →
      ∃ l1 p v l2, l = l1 ++ (p, v) :: l2 ∧
        l.foldl SessionPOC.pocStep (mv, pp) = (v, some p) ∧
        (∀ e ∈ l, e.2 ≤ v) ∧ (∀ e ∈ l1, e.2 < v) ∧ mv < v := by
  induction l with
  | nil => intro mv pp h; simp at h
  | cons e t ih =>
    intro mv pp h
    obtain ⟨q, w⟩ := e
    by_cases hw : mv < w
    · have hstep : SessionPOC.pocStep (mv, pp) (q, w) = (w, some q) := by
        unfold SessionPOC.pocStep
        rw [if_pos hw]
      by_cases ht : ∃ e ∈ t, w < e.2
      · obtain ⟨t1, p, v, t2, heq, hfold, hle, hlt, hwv⟩ := ih w (some q) ht
        refine ⟨(q, w) :: t1, p, v, t2, by rw [heq, List.cons_append], ?_, ?_, ?_,
          lt_trans hw hwv⟩
        · rw [List.foldl_cons, hstep, hfold]
        · intro x hx
          rcases List.mem_cons.mp hx with hx | hx
          · rw [hx]; exact le_of_lt hwv
          · exact hle x hx
        · intro x hx
          rcases List.mem_cons.mp hx with hx | hx
          · rw [hx]; exact hwv
          · exact hlt x hx
      · push_neg at ht
        refine ⟨[], q, w, t, rfl, ?_, ?_, by simp, hw⟩
        · rw [List.foldl_cons, hstep]
          exact SessionPOC.pocFold_stable t w (some q) ht
        · intro x hx
          rcases List.mem_cons.mp hx with hx | hx
          · rw [hx]
          · exact ht x hx
    · have hstep : SessionPOC.pocStep (mv, pp) (q, w) = (mv, pp) := by
        unfold SessionPOC.pocStep
        rw [if_neg hw]
      have ht : ∃ e ∈ t, mv < e.2 := by
        obtain ⟨x, hx, hmx⟩ := h
        rcases List.mem_cons.mp hx with hx | hx
        · exfalso
          rw [hx] at hmx
          exact hw hmx
        · exact ⟨x, hx, hmx⟩
      obtain ⟨t1, p, v, t2, heq, hfold, hle, hlt, hwv⟩ := ih mv pp ht
      refine ⟨(q, w) :: t1, p, v, t2, by rw [heq, List.cons_append], ?_, ?_, ?_, hwv⟩
      · rw [List.foldl_cons, hstep, hfold]
      · intro x hx
        rcases List.mem_cons.mp hx with hx | hx
        · rw [hx]
          exact le_of_lt (lt_of_le_of_lt (not_lt.mp hw) hwv)
        · exact hle x hx
      · intro x hx
        rcases List.mem_cons.mp hx with hx | hx
        · rw [hx]
          exact lt_of_le_of_lt (not_lt.mp hw) hwv
        · exact hlt x hx

/-- C1 (amended): for every nonempty histogram with positive bucket volumes,
`_calculate_poc` returns a bucket attaining the maximal accumulated volume;
when several buckets tie for the maximum, the one returned is the first such
bucket in dict insertion order (the first of the tied buckets to have
received volume), not necessarily the lowest-priced one. -/
theorem C1_amended_poc_first_maximal (s : SessionPOC.State)
    (hne : s.volume_profile ≠ [])
    (hpos : ∀ e ∈ s.volume_profile, 0 < e.2) :
    ∃ l1 p v l2, s.volume_profile = l1 ++ (p, v) :: l2 ∧
      (SessionPOC.calculatePoc s).poc = some p ∧
      (SessionPOC.calculatePoc s).poc_volume = v ∧
      (∀ e ∈ s.volume_profile, e.2 ≤ v) ∧
      (∀ e ∈ l1, e.2 < v) := by
  have hex : ∃ e ∈ s.volume_profile, (0 : ℚ) < e.2 := by
    cases hpr : s.volume_profile with
    | nil => exact absurd hpr hne
    | cons e t =>
      refine ⟨e, List.mem_cons_self e t, ?_⟩
      exact hpos e (by rw [hpr]; exact List.mem_cons_self e t)
  obtain ⟨l1, p, v, l2, heq, hfold, hle, hlt, _⟩ :=
    SessionPOC.pocFold_spec s.volume_profile 0 none hex
  refine ⟨l1, p, v, l2, heq, ?_, ?_, hle, hlt⟩
  · unfold SessionPOC.calculatePoc
    rw [if_neg hne]
    simp only [hfold]
  · unfold SessionPOC.calculatePoc
    rw [if_neg hne]
    simp only [hfold]

/-- Witness for the amended C1 at a concrete two-bucket histogram. -/
theorem C1_amended_poc_first_maximal_witness :
    ∃ l1 p v l2,
      ({ SessionPOC.initState with
          volume_profile := [(100, 3), (101, 7)] } : SessionPOC.State).volume_profile
        = l1 ++ (p, v) :: l2 ∧
      (SessionPOC.calculatePoc
        { SessionPOC.initState with volume_profile := [(100, 3), (101, 7)] }).poc = some p ∧
      (SessionPOC.calculatePoc
        { SessionPOC.initState with volume_profile := [(100, 3), (101, 7)] }).poc_volume = v ∧
      (∀ e ∈ ({ SessionPOC.initState with
          volume_profile := [(100, 3), (101, 7)] } : SessionPOC.State).volume_profile,
        e.2 ≤ v) ∧
      (∀ e ∈ l1, e.2 < v) :=
  C1_amended_poc_first_maximal _ (by simp)
    (by
      intro e he
      rcases List.mem_cons.mp he with h | h
      · rw [h]; norm_num
      · rcases List.mem_cons.mp h with h | h
        · rw [h]; norm_num
        · simp at h)

/-- C1 counterexample: the claim says that on an exact volume tie the
lowest-priced bucket is returned as POC.  Feeding the reachable two-bar
session trace (bar at price 101 with volume 5, then bar at price 100 with
volume 5) produces a histogram in which buckets 101 and 100 tie at volume 5,
yet the returned POC is 101 — the first-inserted bucket — although 100 is the
lower-priced tied bucket. -/
theorem C1_counterexample :
    (SessionPOC.update (SessionPOC.update SessionPOC.initState
        ⟨101, 101, 101, 5⟩ 0 570) ⟨100, 100, 100, 5⟩ 0 571).poc = some 101
    ∧ SessionPOC.lookupVol
        (SessionPOC.update (SessionPOC.update SessionPOC.initState
          ⟨101, 101, 101, 5⟩ 0 570) ⟨100, 100, 100, 5⟩ 0 571).volume_profile 100 = 5
    ∧ SessionPOC.lookupVol
        (SessionPOC.update (SessionPOC.update SessionPOC.initState
          ⟨101, 101, 101, 5⟩ 0 570) ⟨100, 100, 100, 5⟩ 0 571).volume_profile 101 = 5
    ∧ (100 : ℚ) < 101 := by
  have e1 : SessionPOC.update SessionPOC.initState ⟨101, 101, 101, 5⟩ 0 570
      = { volume_profile := [(101, 5)], total_volume := 5, session_date := some 0,
          poc := some 101, poc_volume := 5, vah := some 101, val := some 101,
          is_ready := false, bar_count := 1 } := by
    rw [SessionPOC.update_in_session _ _ _ _ (by norm_num [SessionPOC.session_start])]
    have hroll : SessionPOC.sessionRollover SessionPOC.initState 0 570
        = { SessionPOC.initState with session_date := some 0 } := by
      simp [SessionPOC.sessionRollover, SessionPOC.initState, SessionPOC.reset,
        SessionPOC.session_start]
    rw [hroll, SessionPOC.distribute_zero_range _ _ rfl (by norm_num)]
    norm_num [SessionPOC.bumpBarCount, SessionPOC.initState, SessionPOC.addVol,
      SessionPOC.roundToTick, pyRound, SessionPOC.tick_size,
      SessionPOC.calculatePoc, SessionPOC.pocStep, SessionPOC.calculateValueArea,
      SessionPOC.markReady, SessionPOC.lookupVol, List.find?, List.findIdx?,
      List.insertionSort, List.orderedInsert, SessionPOC.vaExpand,
      SessionPOC.value_area_pct]
  rw [e1]
  have e2 : SessionPOC.update
      { volume_profile := [(101, 5)], total_volume := 5, session_date := some 0,
        poc := some 101, poc_volume := 5, vah := some 101, val := some 101,
        is_ready := false, bar_count := 1 } ⟨100, 100, 100, 5⟩ 0 571
      = { volume_profile := [(101, 5), (100, 5)], total_volume := 10,
          session_date := some 0, poc := some 101, poc_volume := 5,
          vah := some 101, val := some 100, is_ready := false, bar_count := 2 } := by
    rw [SessionPOC.update_in_session _ _ _ _ (by norm_num [SessionPOC.session_start])]
    have hroll : SessionPOC.sessionRollover
        { volume_profile := [(101, 5)], total_volume := 5, session_date := some 0,
          poc := some 101, poc_volume := 5, vah := some 101, val := some 101,
          is_ready := false, bar_count := 1 } 0 571
        = { volume_profile := [(101, 5)], total_volume := 5, session_date := some 0,
            poc := some 101, poc_volume := 5, vah := some 101, val := some 101,
            is_ready := false, bar_count := 1 } := by
      simp [SessionPOC.sessionRollover]
    rw [hroll, SessionPOC.distribute_zero_range _ _ rfl (by norm_num)]
    norm_num [SessionPOC.bumpBarCount, SessionPOC.addVol,
      SessionPOC.roundToTick, pyRound, SessionPOC.tick_size,
      SessionPOC.calculatePoc, SessionPOC.pocStep, SessionPOC.calculateValueArea,
      SessionPOC.markReady, SessionPOC.lookupVol, List.find?, List.findIdx?,
      List.insertionSort, List.orderedInsert, SessionPOC.vaExpand,
      SessionPOC.value_area_pct]
    simp
  rw [e2]
  refine ⟨rfl, ?_, ?_, by norm_num⟩
  · norm_num [SessionPOC.lookupVol, List.find?]
  · norm_num [SessionPOC.lookupVol, List.find?]

/-- Sum of bucket volumes over the price band `[a, b]` (inclusive). -/
def SessionPOC.bandSum (profile : List (ℚ × ℚ)) (a b : ℚ) : ℚ :=
  ((profile.filter (fun e => a ≤ e.1 ∧ e.1 ≤ b)).map Prod.snd).sum

/-- With distinct keys, the dict lookup of an entry's key returns its value. -/
theorem SessionPOC.lookupVol_of_mem {profile : List (ℚ × ℚ)}
    (hnd : (profile.map Prod.fst).Nodup) {e : ℚ × ℚ} (he : e ∈ profile) :
    SessionPOC.lookupVol profile e.1 = e.2 := by
  induction profile with
  | nil => simp at he
  | cons hd t ih =>
    obtain ⟨q, v⟩ := hd
    rcases List.mem_cons.mp he with he | he
    · rw [he]
      simp [SessionPOC.lookupVol, List.find?]
    · have hq : q ≠ e.1 := by
        intro hcontr
        have h1 : e.1 ∈ t.map Prod.fst := List.mem_map_of_mem Prod.fst he
        have h2 := (List.nodup_cons.mp hnd).1
        rw [hcontr] at h2
        exact h2 h1
      have ht : SessionPOC.lookupVol t e.1 = e.2 :=
        ih (List.nodup_cons.mp hnd).2 he
      simp only [SessionPOC.lookupVol, List.find?] at ht ⊢
      rw [show (decide ((q, v).1 = e.1)) = false from decide_eq_false hq]
      exact ht

/-- A sorted list with no duplicates is strictly increasing position-wise. -/
theorem sorted_nodup_get_lt {l : List ℚ} (hs : l.Sorted (· ≤ ·)) (hnd : l.Nodup)
    {i j : Fin l.length} (hij : i < j) : l.get i < l.get j := by
  have h1 : l.get i ≤ l.get j := List.pairwise_iff_get.mp hs i j hij
  have h2 : l.get i ≠ l.get j := fun h =>
    absurd (List.nodup_iff_injective_get.mp hnd h) (Fin.ne_of_lt hij)
  exact lt_of_le_of_ne h1 h2

theorem getD_eq_get_of_lt (l : List ℚ) {i : ℕ} (h : i < l.length) :
    l.getD i 0 = l.get ⟨i, h⟩ := by
  simp [List.getD_eq_getElem?_getD, List.getElem?_eq_getElem h]

/-- The band sum over `[a, b]` as a sum of dict lookups over the distinct keys
lying in the band. -/
theorem SessionPOC.bandSum_eq_finset (profile : List (ℚ × ℚ))
    (hnd : (profile.map Prod.fst).Nodup) (a b : ℚ) :
    SessionPOC.bandSum profile a b
      = ∑ p ∈ (profile.map Prod.fst).toFinset.filter (fun p => a ≤ p ∧ p ≤ b),
          SessionPOC.lookupVol profile p := by
  classical
  have hfilter : (profile.map Prod.fst).filter (fun p => a ≤ p ∧ p ≤ b)
      = (profile.filter (fun e => a ≤ e.1 ∧ e.1 ≤ b)).map Prod.fst := by
    rw [List.filter_map]
    rfl
  have hndf : ((profile.map Prod.fst).filter (fun p => a ≤ p ∧ p ≤ b)).Nodup :=
    hnd.filter _
  have h1 : ((profile.map Prod.fst).filter (fun p => a ≤ p ∧ p ≤ b)).toFinset
      = (profile.map Prod.fst).toFinset.filter (fun p => a ≤ p ∧ p ≤ b) := by
    ext x
    simp [List.mem_filter, List.mem_toFinset, Finset.mem_filter]
  rw [← h1, List.sum_toFinset _ hndf, hfilter, List.map_map]
  unfold SessionPOC.bandSum
  have h2 : (profile.filter (fun e => a ≤ e.1 ∧ e.1 ≤ b)).map
      (SessionPOC.lookupVol profile ∘ Prod.fst)
      = (profile.filter (fun e => a ≤ e.1 ∧ e.1 ≤ b)).map Prod.snd := by
    apply List.map_congr_left
    intro e he
    exact SessionPOC.lookupVol_of_mem hnd (List.mem_of_mem_filter he)
  rw [h2]

/-- For a sorted duplicate-free list, the keys lying between the values at
positions `lo` and `hi` are exactly the positions in `[lo, hi]`. -/
theorem sum_filter_band_eq_sum_Icc (sorted : List ℚ) (volAt : ℚ → ℚ)
    (hs : sorted.Sorted (· ≤ ·)) (hnd : sorted.Nodup) {lo hi : ℕ}
    (hlohi : lo ≤ hi) (hhi : hi < sorted.length) :
    ∑ p ∈ sorted.toFinset.filter
        (fun p => sorted.getD lo 0 ≤ p ∧ p ≤ sorted.getD hi 0), volAt p
      = ∑ i ∈ Finset.Icc lo hi, volAt (sorted.getD i 0) := by
  classical
  have hmono : ∀ {i j : ℕ} (hij : i ≤ j) (hj : j < sorted.length),
      sorted.getD i 0 ≤ sorted.getD j 0 := by
    intro i j hij hj
    have hi' : i < sorted.length := lt_of_le_of_lt hij hj
    rw [getD_eq_get_of_lt _ hi', getD_eq_get_of_lt _ hj]
    rcases lt_or_eq_of_le hij with h | h
    · exact le_of_lt (sorted_nodup_get_lt hs hnd (by exact h))
    · subst h
      rfl
  have hsmono : ∀ {i j : ℕ} (hij : i < j) (hj : j < sorted.length),
      sorted.getD i 0 < sorted.getD j 0 := by
    intro i j hij hj
    have hi' : i < sorted.length := lt_trans hij hj
    rw [getD_eq_get_of_lt _ hi', getD_eq_get_of_lt _ hj]
    exact sorted_nodup_get_lt hs hnd (by exact hij)
  symm
  apply Finset.sum_nbij (fun i => sorted.getD i 0)
  · intro i hi
    rw [Finset.mem_Icc] at hi
    have hilen : i < sorted.length := lt_of_le_of_lt hi.2 hhi
    rw [Finset.mem_filter]
    refine ⟨?_, hmono hi.1 hilen, hmono hi.2 hhi⟩
    rw [List.mem_toFinset, getD_eq_get_of_lt _ hilen]
    exact List.get_mem sorted i hilen
  · intro i hi j hj hij
    rw [Finset.mem_coe, Finset.mem_Icc] at hi hj
    have hi' : i < sorted.length := lt_of_le_of_lt hi.2 hhi
    have hj' : j < sorted.length := lt_of_le_of_lt hj.2 hhi
    rcases Nat.lt_trichotomy i j with h | h | h
    · exact absurd hij (ne_of_lt (hsmono h hj'))
    · exact h
    · exact absurd hij.symm (ne_of_lt (hsmono h hi'))
  · intro p hp
    rw [Finset.coe_filter, Set.mem_setOf_eq] at hp
    obtain ⟨hpmem, hplo, hphi⟩ := hp
    rw [List.mem_toFinset, List.mem_iff_get] at hpmem
    obtain ⟨⟨j, hj⟩, hget⟩ := hpmem
    refine ⟨j, ?_, ?_⟩
    · rw [Finset.mem_coe, Finset.mem_Icc]
      constructor
      · by_contra hcon
        push_neg at hcon
        have hlt := hsmono hcon (lt_of_le_of_lt hlohi hhi)
        rw [getD_eq_get_of_lt _ hj, hget] at hlt
        exact absurd hplo (not_le.mpr hlt)
      · by_contra hcon
        push_neg at hcon
        have hlt := hsmono hcon hj
        rw [getD_eq_get_of_lt _ hj, hget] at hlt
        exact absurd hphi (not_le.mpr hlt)
    · show sorted.getD j 0 = p
      rw [getD_eq_get_of_lt _ hj, hget]
  · intro i _
    rfl

/-- Invariant of the value-area expansion loop: given enough fuel, the final
window contains the starting window, stays inside the list, and either its
volume reaches the target or it covers the whole list (both bounds
exhausted). -/
theorem SessionPOC.vaExpand_spec (sorted : List ℚ) (volAt : ℚ → ℚ) (target : ℚ) :
    ∀ fuel lo hi acc, lo ≤ hi → hi < sorted.length →
      acc = ∑ i ∈ Finset.Icc lo hi, volAt (sorted.getD i 0) →
      sorted.length ≤ fuel + (hi - lo) →
      (SessionPOC.vaExpand sorted volAt target fuel acc lo hi).1
          ≤ (SessionPOC.vaExpand sorted volAt target fuel acc lo hi).2 ∧
      (SessionPOC.vaExpand sorted volAt target fuel acc lo hi).2 < sorted.length ∧
      (target ≤ ∑ i ∈ Finset.Icc (SessionPOC.vaExpand sorted volAt target fuel acc lo hi).1
          (SessionPOC.vaExpand sorted volAt target fuel acc lo hi).2,
            volAt (sorted.getD i 0)
        ∨ ((SessionPOC.vaExpand sorted volAt target fuel acc lo hi).1 = 0
            ∧ (SessionPOC.vaExpand sorted volAt target fuel acc lo hi).2
                = sorted.length - 1)) := by
  intro fuel
  induction fuel with
  | zero =>
    intro lo hi acc hlohi hhi _ hfuel
    exfalso
    omega
  | succ fuel ih =>
    intro lo hi acc hlohi hhi hacc hfuel
    by_cases htarget : acc < target
    · by_cases hup : hi + 1 < sorted.length
      · by_cases hdown : 1 ≤ lo
        · by_cases hcmp : volAt (sorted.getD (hi+1) 0) ≥ volAt (sorted.getD (lo-1) 0)
          · have heq : SessionPOC.vaExpand sorted volAt target (fuel+1) acc lo hi
                = SessionPOC.vaExpand sorted volAt target fuel
                    (acc + volAt (sorted.getD (hi+1) 0)) lo (hi+1) := by
              simp only [SessionPOC.vaExpand]
              rw [if_pos htarget, if_pos hup, if_pos hdown, if_pos hcmp]
            rw [heq]
            exact ih lo (hi+1) (acc + volAt (sorted.getD (hi+1) 0))
              (le_trans hlohi (Nat.le_succ hi)) hup
              (by rw [hacc, Finset.sum_Icc_succ_top (le_trans hlohi (Nat.le_succ hi))])
              (by omega)
          · have hins : Finset.Icc (lo-1) hi = insert (lo-1) (Finset.Icc lo hi) := by
              ext x
              simp only [Finset.mem_Icc, Finset.mem_insert]
              omega
            have hnotmem : (lo-1) ∉ Finset.Icc lo hi := by
              simp only [Finset.mem_Icc]
              omega
            have heq : SessionPOC.vaExpand sorted volAt target (fuel+1) acc lo hi
                = SessionPOC.vaExpand sorted volAt target fuel
                    (acc + volAt (sorted.getD (lo-1) 0)) (lo-1) hi := by
              simp only [SessionPOC.vaExpand]
              rw [if_pos htarget, if_pos hup, if_pos hdown, if_neg hcmp]
            rw [heq]
            exact ih (lo-1) hi (acc + volAt (sorted.getD (lo-1) 0))
              (le_trans (Nat.sub_le lo 1) hlohi) hhi
              (by rw [hacc, hins, Finset.sum_insert hnotmem]; ring)
              (by omega)
        · have heq : SessionPOC.vaExpand sorted volAt target (fuel+1) acc lo hi
              = SessionPOC.vaExpand sorted volAt target fuel
                  (acc + volAt (sorted.getD (hi+1) 0)) lo (hi+1) := by
            simp only [SessionPOC.vaExpand]
            rw [if_pos htarget, if_pos hup, if_neg hdown]
          rw [heq]
          exact ih lo (hi+1) (acc + volAt (sorted.getD (hi+1) 0))
            (le_trans hlohi (Nat.le_succ hi)) hup
            (by rw [hacc, Finset.sum_Icc_succ_top (le_trans hlohi (Nat.le_succ hi))])
            (by omega)
      · by_cases hdown : 1 ≤ lo
        · have hins : Finset.Icc (lo-1) hi = insert (lo-1) (Finset.Icc lo hi) := by
            ext x
            simp only [Finset.mem_Icc, Finset.mem_insert]
            omega
          have hnotmem : (lo-1) ∉ Finset.Icc lo hi := by
            simp only [Finset.mem_Icc]
            omega
          have heq : SessionPOC.vaExpand sorted volAt target (fuel+1) acc lo hi
              = SessionPOC.vaExpand sorted volAt target fuel
                  (acc + volAt (sorted.getD (lo-1) 0)) (lo-1) hi := by
            simp only [SessionPOC.vaExpand]
            rw [if_pos htarget, if_neg hup, if_pos hdown]
          rw [heq]
          exact ih (lo-1) hi (acc + volAt (sorted.getD (lo-1) 0))
            (le_trans (Nat.sub_le lo 1) hlohi) hhi
            (by rw [hacc, hins, Finset.sum_insert hnotmem]; ring)
            (by omega)
        · have heq : SessionPOC.vaExpand sorted volAt target (fuel+1) acc lo hi
              = (lo, hi) := by
            simp only [SessionPOC.vaExpand]
            rw [if_pos htarget, if_neg hup, if_neg hdown]
          rw [heq]
          exact ⟨hlohi, hhi, Or.inr ⟨by omega, by omega⟩⟩
    · have heq : SessionPOC.vaExpand sorted volAt target (fuel+1) acc lo hi
          = (lo, hi) := by
        simp only [SessionPOC.vaExpand]
        rw [if_neg htarget]
      rw [heq, ← hacc]
      exact ⟨hlohi, hhi, Or.inl (not_lt.mp htarget)⟩

theorem foldl_max_init (l : List ℚ) : ∀ b : ℚ, b ≤ l.foldl max b := by
  induction l with
  | nil => intro b; simp
  | cons c t ih =>
    intro b
    rw [List.foldl_cons]
    exact le_trans (le_max_left b c) (ih (max b c))

theorem foldl_min_init (l : List ℚ) : ∀ b : ℚ, l.foldl min b ≤ b := by
  induction l with
  | nil => intro b; simp
  | cons c t ih =>
    intro b
    rw [List.foldl_cons]
    exact le_trans (ih (min b c)) (min_le_left b c)

theorem mem_le_foldl_max {k x : ℚ} {ks : List ℚ} (hx : x ∈ k :: ks) :
    x ≤ ks.foldl max k := by
  induction ks generalizing k with
  | nil =>
    rcases List.mem_cons.mp hx with h | h
    · rw [h, List.foldl_nil]
    · simp at h
  | cons c t ih =>
    rw [List.foldl_cons]
    rcases List.mem_cons.mp hx with h | h
    · rw [h]
      exact le_trans (le_max_left k c) (foldl_max_init t (max k c))
    · rcases List.mem_cons.mp h with h2 | h2
      · rw [h2]
        exact le_trans (le_max_right k c) (foldl_max_init t (max k c))
      · exact ih (List.mem_cons_of_mem _ h2)

theorem foldl_min_le_mem {k x : ℚ} {ks : List ℚ} (hx : x ∈ k :: ks) :
    ks.foldl min k ≤ x := by
  induction ks generalizing k with
  | nil =>
    rcases List.mem_cons.mp hx with h | h
    · rw [h, List.foldl_nil]
    · simp at h
  | cons c t ih =>
    rw [List.foldl_cons]
    rcases List.mem_cons.mp hx with h | h
    · rw [h]
      exact le_trans (foldl_min_init t (min k c)) (min_le_left k c)
    · rcases List.mem_cons.mp h with h2 | h2
      · rw [h2]
        exact le_trans (foldl_min_init t (min k c)) (min_le_right k c)
      · exact ih (List.mem_cons_of_mem _ h2)

/-- When every bucket's price lies in `[a, b]`, the band sum is the whole
histogram sum. -/
theorem SessionPOC.bandSum_all {profile : List (ℚ × ℚ)} {a b : ℚ}
    (h : ∀ e ∈ profile, a ≤ e.1 ∧ e.1 ≤ b) :
    SessionPOC.bandSum profile a b = SessionPOC.sumVol profile := by
  unfold SessionPOC.bandSum SessionPOC.sumVol
  have hf : profile.filter (fun e => a ≤ e.1 ∧ e.1 ≤ b) = profile := by
    apply List.filter_eq_self.mpr
    intro e he
    simpa using h e he
  rw [hf]

/-- Reduction of `_calculate_value_area` when all three guards pass, with the
local variables of the Python method spelled out. -/
theorem SessionPOC.calculateValueArea_eq_branch (s : SessionPOC.State) (pocP : ℚ)
    (hne : s.volume_profile ≠ []) (ht : s.total_volume ≠ 0)
    (hpoc : s.poc = some pocP) :
    SessionPOC.calculateValueArea s
      = (match (List.insertionSort (· ≤ ·) (s.volume_profile.map Prod.fst)).findIdx?
            (fun p => p = pocP) with
        | none =>
          (match s.volume_profile.map Prod.fst with
            | [] => s
            | k :: ks =>
              { s with vah := some (ks.foldl max k), val := some (ks.foldl min k) })
        | some pidx =>
          { s with
            vah := some ((List.insertionSort (· ≤ ·) (s.volume_profile.map Prod.fst)).getD
              (SessionPOC.vaExpand
                (List.insertionSort (· ≤ ·) (s.volume_profile.map Prod.fst))
                (SessionPOC.lookupVol s.volume_profile)
                (s.total_volume * SessionPOC.value_area_pct)
                (List.insertionSort (· ≤ ·) (s.volume_profile.map Prod.fst)).length
                (SessionPOC.lookupVol s.volume_profile pocP) pidx pidx).2 0),
            val := some ((List.insertionSort (· ≤ ·) (s.volume_profile.map Prod.fst)).getD
              (SessionPOC.vaExpand
                (List.insertionSort (· ≤ ·) (s.volume_profile.map Prod.fst))
                (SessionPOC.lookupVol s.volume_profile)
                (s.total_volume * SessionPOC.value_area_pct)
                (List.insertionSort (· ≤ ·) (s.volume_profile.map Prod.fst)).length
                (SessionPOC.lookupVol s.volume_profile pocP) pidx pidx).1 0) }) := by
  unfold SessionPOC.calculateValueArea
  rw [if_neg hne, if_neg ht, hpoc]

/-- C3 (amended): after a value-area recomputation on a histogram with
distinct keys, consistent positive total volume and a defined POC, the sum of
bucket volumes between VAL and VAH inclusive is at least
`value_area_pct * total_volume`.  (The original claim's additional minimality
of both boundary buckets does not hold; see the counterexample.) -/
theorem C3_amended_value_area_covers_target (s : SessionPOC.State) (pocP : ℚ)
    (hpoc : s.poc = some pocP)
    (hnd : (s.volume_profile.map Prod.fst).Nodup)
    (htot : SessionPOC.sumVol s.volume_profile = s.total_volume)
    (hpos : 0 < s.total_volume) :
    ∃ A B, (SessionPOC.calculateValueArea s).val = some A ∧
      (SessionPOC.calculateValueArea s).vah = some B ∧
      s.total_volume * SessionPOC.value_area_pct
        ≤ SessionPOC.bandSum s.volume_profile A B := by
  classical
  have hprofne : s.volume_profile ≠ [] := by
    intro h
    rw [h] at htot
    simp [SessionPOC.sumVol] at htot
    rw [← htot] at hpos
    exact lt_irrefl 0 hpos
  have htotle : s.total_volume * SessionPOC.value_area_pct ≤ s.total_volume := by
    have h7 : SessionPOC.value_area_pct = 7/10 := rfl
    rw [h7]
    nlinarith [hpos]
  rw [SessionPOC.calculateValueArea_eq_branch s pocP hprofne (ne_of_gt hpos) hpoc]
  have hperm : List.Perm (List.insertionSort (· ≤ ·) (s.volume_profile.map Prod.fst))
      (s.volume_profile.map Prod.fst) := List.perm_insertionSort _ _
  have hsort : (List.insertionSort (· ≤ ·) (s.volume_profile.map Prod.fst)).Sorted (· ≤ ·) :=
    List.sorted_insertionSort _ _
  have hndsorted : (List.insertionSort (· ≤ ·) (s.volume_profile.map Prod.fst)).Nodup :=
    hperm.nodup_iff.mpr hnd
  have htofin : (List.insertionSort (· ≤ ·) (s.volume_profile.map Prod.fst)).toFinset
      = (s.volume_profile.map Prod.fst).toFinset := List.toFinset_eq_of_perm _ _ hperm
  cases hidx : (List.insertionSort (· ≤ ·) (s.volume_profile.map Prod.fst)).findIdx?
      (fun p => p = pocP) with
  | none =>
    cases hk : s.volume_profile.map Prod.fst with
    | nil =>
      exfalso
      apply hprofne
      have hlen := congrArg List.length hk
      rw [List.length_map] at hlen
      exact List.length_eq_zero.mp hlen
    | cons k ks =>
      refine ⟨ks.foldl min k, ks.foldl max k, rfl, rfl, ?_⟩
      have hband : SessionPOC.bandSum s.volume_profile (ks.foldl min k) (ks.foldl max k)
          = SessionPOC.sumVol s.volume_profile := by
        apply SessionPOC.bandSum_all
        intro e he
        have hmem : e.1 ∈ k :: ks := by
          rw [← hk]
          exact List.mem_map_of_mem Prod.fst he
        exact ⟨foldl_min_le_mem hmem, mem_le_foldl_max hmem⟩
      rw [hband, htot]
      exact htotle
  | some pidx =>
    obtain ⟨hplen, hpval, _⟩ := List.findIdx?_eq_some_iff_getElem.mp hidx
    have hgetpoc : (List.insertionSort (· ≤ ·) (s.volume_profile.map Prod.fst)).getD pidx 0
        = pocP := by
      rw [getD_eq_get_of_lt _ hplen]
      exact of_decide_eq_true hpval
    have hacc : SessionPOC.lookupVol s.volume_profile pocP
        = ∑ i ∈ Finset.Icc pidx pidx,
            SessionPOC.lookupVol s.volume_profile
              ((List.insertionSort (· ≤ ·) (s.volume_profile.map Prod.fst)).getD i 0) := by
      rw [Finset.Icc_self, Finset.sum_singleton, hgetpoc]
    have hspec := SessionPOC.vaExpand_spec
      (List.insertionSort (· ≤ ·) (s.volume_profile.map Prod.fst))
      (SessionPOC.lookupVol s.volume_profile)
      (s.total_volume * SessionPOC.value_area_pct)
      (List.insertionSort (· ≤ ·) (s.volume_profile.map Prod.fst)).length
      pidx pidx (SessionPOC.lookupVol s.volume_profile pocP) le_rfl hplen hacc (by omega)
    obtain ⟨hw12, hw2len, hdisj⟩ := hspec
    refine ⟨(List.insertionSort (· ≤ ·) (s.volume_profile.map Prod.fst)).getD
        (SessionPOC.vaExpand
          (List.insertionSort (· ≤ ·) (s.volume_profile.map Prod.fst))
          (SessionPOC.lookupVol s.volume_profile)
          (s.total_volume * SessionPOC.value_area_pct)
          (List.insertionSort (· ≤ ·) (s.volume_profile.map Prod.fst)).length
          (SessionPOC.lookupVol s.volume_profile pocP) pidx pidx).1 0,
      (List.insertionSort (· ≤ ·) (s.volume_profile.map Prod.fst)).getD
        (SessionPOC.vaExpand
          (List.insertionSort (· ≤ ·) (s.volume_profile.map Prod.fst))
          (SessionPOC.lookupVol s.volume_profile)
          (s.total_volume * SessionPOC.value_area_pct)
          (List.insertionSort (· ≤ ·) (s.volume_profile.map Prod.fst)).length
          (SessionPOC.lookupVol s.volume_profile pocP) pidx pidx).2 0,
      rfl, rfl, ?_⟩
    have hband : SessionPOC.bandSum s.volume_profile
        ((List.insertionSort (· ≤ ·) (s.volume_profile.map Prod.fst)).getD
          (SessionPOC.vaExpand
            (List.insertionSort (· ≤ ·) (s.volume_profile.map Prod.fst))
            (SessionPOC.lookupVol s.volume_profile)
            (s.total_volume * SessionPOC.value_area_pct)
            (List.insertionSort (· ≤ ·) (s.volume_profile.map Prod.fst)).length
            (SessionPOC.lookupVol s.volume_profile pocP) pidx pidx).1 0)
        ((List.insertionSort (· ≤ ·) (s.volume_profile.map Prod.fst)).getD
          (SessionPOC.vaExpand
            (List.insertionSort (· ≤ ·) (s.volume_profile.map Prod.fst))
            (SessionPOC.lookupVol s.volume_profile)
            (s.total_volume * SessionPOC.value_area_pct)
            (List.insertionSort (· ≤ ·) (s.volume_profile.map Prod.fst)).length
            (SessionPOC.lookupVol s.volume_profile pocP) pidx pidx).2 0)
        = ∑ i ∈ Finset.Icc
            (SessionPOC.vaExpand
              (List.insertionSort (· ≤ ·) (s.volume_profile.map Prod.fst))
              (SessionPOC.lookupVol s.volume_profile)
              (s.total_volume * SessionPOC.value_area_pct)
              (List.insertionSort (· ≤ ·) (s.volume_profile.map Prod.fst)).length
              (SessionPOC.lookupVol s.volume_profile pocP) pidx pidx).1
            (SessionPOC.vaExpand
              (List.insertionSort (· ≤ ·) (s.volume_profile.map Prod.fst))
              (SessionPOC.lookupVol s.volume_profile)
              (s.total_volume * SessionPOC.value_area_pct)
              (List.insertionSort (· ≤ ·) (s.volume_profile.map Prod.fst)).length
              (SessionPOC.lookupVol s.volume_profile pocP) pidx pidx).2,
            SessionPOC.lookupVol s.volume_profile
              ((List.insertionSort (· ≤ ·) (s.volume_profile.map Prod.fst)).getD i 0) := by
      rw [SessionPOC.bandSum_eq_finset s.volume_profile hnd, ← htofin]
      exact sum_filter_band_eq_sum_Icc _ _ hsort hndsorted hw12 hw2len
    rcases hdisj with hcase | hcase
    · rw [hband]
      exact hcase
    · have hall : ∀ e ∈ s.volume_profile,
          (List.insertionSort (· ≤ ·) (s.volume_profile.map Prod.fst)).getD
            (SessionPOC.vaExpand
              (List.insertionSort (· ≤ ·) (s.volume_profile.map Prod.fst))
              (SessionPOC.lookupVol s.volume_profile)
              (s.total_volume * SessionPOC.value_area_pct)
              (List.insertionSort (· ≤ ·) (s.volume_profile.map Prod.fst)).length
              (SessionPOC.lookupVol s.volume_profile pocP) pidx pidx).1 0 ≤ e.1
          ∧ e.1 ≤ (List.insertionSort (· ≤ ·) (s.volume_profile.map Prod.fst)).getD
            (SessionPOC.vaExpand
              (List.insertionSort (· ≤ ·) (s.volume_profile.map Prod.fst))
              (SessionPOC.lookupVol s.volume_profile)
              (s.total_volume * SessionPOC.value_area_pct)
              (List.insertionSort (· ≤ ·) (s.volume_profile.map Prod.fst)).length
              (SessionPOC.lookupVol s.volume_profile pocP) pidx pidx).2 0 := by
        intro e he
        have hmem : e.1 ∈ List.insertionSort (· ≤ ·) (s.volume_profile.map Prod.fst) := by
          rw [hperm.mem_iff]
          exact List.mem_map_of_mem Prod.fst he
        rw [List.mem_iff_get] at hmem
        obtain ⟨⟨j, hj⟩, hget⟩ := hmem
        have hj0 : (SessionPOC.vaExpand
            (List.insertionSort (· ≤ ·) (s.volume_profile.map Prod.fst))
            (SessionPOC.lookupVol s.volume_profile)
            (s.total_volume * SessionPOC.value_area_pct)
            (List.insertionSort (· ≤ ·) (s.volume_profile.map Prod.fst)).length
            (SessionPOC.lookupVol s.volume_profile pocP) pidx pidx).1 ≤ j := by omega
        have hjtop : j ≤ (SessionPOC.vaExpand
            (List.insertionSort (· ≤ ·) (s.volume_profile.map Prod.fst))
            (SessionPOC.lookupVol s.volume_profile)
            (s.total_volume * SessionPOC.value_area_pct)
            (List.insertionSort (· ≤ ·) (s.volume_profile.map Prod.fst)).length
            (SessionPOC.lookupVol s.volume_profile pocP) pidx pidx).2 := by omega
        constructor
        · rcases lt_or_eq_of_le hj0 with h | h
          · rw [← hget, getD_eq_get_of_lt _ (lt_of_le_of_lt hw12 hw2len)]
            exact le_of_lt (sorted_nodup_get_lt hsort hndsorted h)
          · rw [← hget, getD_eq_get_of_lt _ (lt_of_le_of_lt hw12 hw2len)]
            subst h
            rfl
        · rcases lt_or_eq_of_le hjtop with h | h
          · rw [← hget, getD_eq_get_of_lt _ hw2len]
            exact le_of_lt (sorted_nodup_get_lt hsort hndsorted h)
          · rw [← hget, getD_eq_get_of_lt _ hw2len]
            subst h
            rfl
      rw [SessionPOC.bandSum_all hall, htot]
      exact htotle

/-- Witness for the amended C3 at a concrete two-bucket histogram. -/
theorem C3_amended_value_area_covers_target_witness :
    ∃ A B, (SessionPOC.calculateValueArea
        { SessionPOC.initState with
            volume_profile := [(100, 3), (101, 7)], total_volume := 10,
            poc := some 101 }).val = some A ∧
      (SessionPOC.calculateValueArea
        { SessionPOC.initState with
            volume_profile := [(100, 3), (101, 7)], total_volume := 10,
            poc := some 101 }).vah = some B ∧
      (10 : ℚ) * SessionPOC.value_area_pct
        ≤ SessionPOC.bandSum [(100, 3), (101, 7)] A B :=
  C3_amended_value_area_covers_target _ 101 rfl (by norm_num)
    (by norm_num [SessionPOC.sumVol]) (by norm_num)

/-- Mid-session `update` for a single-price bar, with the histogram change
made explicit. -/
theorem SessionPOC.update_single_mid (s : SessionPOC.State) (p V : ℚ) (d : ℤ)
    (tod : ℚ) (hdate : s.session_date = some d)
    (htod : SessionPOC.session_start ≤ tod) (hV : 0 < V) :
    SessionPOC.update s ⟨p, p, p, V⟩ d tod
      = SessionPOC.markReady (SessionPOC.calculateValueArea (SessionPOC.calculatePoc
          { s with bar_count := s.bar_count + 1,
                   volume_profile :=
                     SessionPOC.addVol s.volume_profile (SessionPOC.roundToTick p) V,
                   total_volume := s.total_volume + V })) := by
  rw [SessionPOC.update_in_session _ _ _ _ htod]
  have hroll : SessionPOC.sessionRollover s d tod = s := by
    unfold SessionPOC.sessionRollover
    simp [hdate]
  rw [hroll, SessionPOC.distribute_zero_range _ _ rfl hV]
  rfl

/-- The session state reached by feeding five single-price bars with volumes
3, 5, 100, 4, 99 at the prices 100, 101, 102, 103, 104 (all tick-aligned) on
day 0 from 9:30 on. -/
def vaTraceState : SessionPOC.State :=
  SessionPOC.update (SessionPOC.update (SessionPOC.update (SessionPOC.update
    (SessionPOC.update SessionPOC.initState ⟨100, 100, 100, 3⟩ 0 570)
    ⟨101, 101, 101, 5⟩ 0 571)
    ⟨102, 102, 102, 100⟩ 0 572)
    ⟨103, 103, 103, 4⟩ 0 573)
    ⟨104, 104, 104, 99⟩ 0 574

/-- State after the first bar of the five-bar trace. -/
def vaS1 : SessionPOC.State :=
  { volume_profile := [(100, 3)], total_volume := 3, session_date := some 0,
    poc := some 100, poc_volume := 3, vah := some 100, val := some 100,
    is_ready := false, bar_count := 1 }

/-- State after the second bar of the five-bar trace. -/
def vaS2 : SessionPOC.State :=
  { volume_profile := [(100, 3), (101, 5)], total_volume := 8,
    session_date := some 0, poc := some 101, poc_volume := 5,
    vah := some 101, val := some 100, is_ready := false, bar_count := 2 }

/-- State after the third bar of the five-bar trace. -/
def vaS3 : SessionPOC.State :=
  { volume_profile := [(100, 3), (101, 5), (102, 100)], total_volume := 108,
    session_date := some 0, poc := some 102, poc_volume := 100,
    vah := some 102, val := some 102, is_ready := false, bar_count := 3 }

/-- State after the fourth bar of the five-bar trace. -/
def vaS4 : SessionPOC.State :=
  { volume_profile := [(100, 3), (101, 5), (102, 100), (103, 4)],
    total_volume := 112, session_date := some 0, poc := some 102,
    poc_volume := 100, vah := some 102, val := some 102,
    is_ready := false, bar_count := 4 }

/-- State after the fifth bar of the five-bar trace. -/
def vaS5 : SessionPOC.State :=
  { volume_profile := [(100, 3), (101, 5), (102, 100), (103, 4), (104, 99)],
    total_volume := 211, session_date := some 0, poc := some 102,
    poc_volume := 100, vah := some 104, val := some 101,
    is_ready := true, bar_count := 5 }

theorem vaTraceState_eval : vaTraceState = vaS5 := by
  have e1 : SessionPOC.update SessionPOC.initState ⟨100, 100, 100, 3⟩ 0 570 = vaS1 := by
    rw [SessionPOC.update_in_session _ _ _ _ (by norm_num [SessionPOC.session_start])]
    have hroll : SessionPOC.sessionRollover SessionPOC.initState 0 570
        = { SessionPOC.initState with session_date := some 0 } := by
      simp [SessionPOC.sessionRollover, SessionPOC.initState, SessionPOC.reset,
        SessionPOC.session_start]
    rw [hroll, SessionPOC.distribute_zero_range _ _ rfl (by norm_num)]
    norm_num [SessionPOC.bumpBarCount, SessionPOC.initState, vaS1, SessionPOC.addVol,
      SessionPOC.roundToTick, pyRound, SessionPOC.tick_size,
      SessionPOC.calculatePoc, SessionPOC.pocStep, SessionPOC.calculateValueArea,
      SessionPOC.markReady, SessionPOC.lookupVol, List.find?, List.findIdx?,
      List.insertionSort, List.orderedInsert, SessionPOC.vaExpand,
      SessionPOC.value_area_pct]
  have e2 : SessionPOC.update vaS1 ⟨101, 101, 101, 5⟩ 0 571 = vaS2 := by
    rw [SessionPOC.update_single_mid _ _ _ _ _ rfl
      (by norm_num [SessionPOC.session_start]) (by norm_num)]
    norm_num [vaS1, vaS2, SessionPOC.addVol, SessionPOC.roundToTick, pyRound,
      SessionPOC.tick_size, SessionPOC.calculatePoc, SessionPOC.pocStep,
      SessionPOC.calculateValueArea, SessionPOC.markReady, SessionPOC.lookupVol,
      List.find?, List.findIdx?, List.insertionSort, List.orderedInsert,
      SessionPOC.vaExpand, SessionPOC.value_area_pct]
    all_goals try simp
    all_goals try norm_num
  have e3 : SessionPOC.update vaS2 ⟨102, 102, 102, 100⟩ 0 572 = vaS3 := by
    rw [SessionPOC.update_single_mid _ _ _ _ _ rfl
      (by norm_num [SessionPOC.session_start]) (by norm_num)]
    norm_num [vaS2, vaS3, SessionPOC.addVol, SessionPOC.roundToTick, pyRound,
      SessionPOC.tick_size, SessionPOC.calculatePoc, SessionPOC.pocStep,
      SessionPOC.calculateValueArea, SessionPOC.markReady, SessionPOC.lookupVol,
      List.find?, List.findIdx?, List.insertionSort, List.orderedInsert,
      SessionPOC.vaExpand, SessionPOC.value_area_pct]
    all_goals try simp
    all_goals try norm_num
  have e4 : SessionPOC.update vaS3 ⟨103, 103, 103, 4⟩ 0 573 = vaS4 := by
    rw [SessionPOC.update_single_mid _ _ _ _ _ rfl
      (by norm_num [SessionPOC.session_start]) (by norm_num)]
    norm_num [vaS3, vaS4, SessionPOC.addVol, SessionPOC.roundToTick, pyRound,
      SessionPOC.tick_size, SessionPOC.calculatePoc, SessionPOC.pocStep,
      SessionPOC.calculateValueArea, SessionPOC.markReady, SessionPOC.lookupVol,
      List.find?, List.findIdx?, List.insertionSort, List.orderedInsert,
      SessionPOC.vaExpand, SessionPOC.value_area_pct]
    all_goals try simp
    all_goals try norm_num
  have e5 : SessionPOC.update vaS4 ⟨104, 104, 104, 99⟩ 0 574 = vaS5 := by
    rw [SessionPOC.update_single_mid _ _ _ _ _ rfl
      (by norm_num [SessionPOC.session_start]) (by norm_num)]
    norm_num [vaS4, vaS5, SessionPOC.addVol, SessionPOC.roundToTick, pyRound,
      SessionPOC.tick_size, SessionPOC.calculatePoc, SessionPOC.pocStep,
      SessionPOC.calculateValueArea, SessionPOC.markReady, SessionPOC.lookupVol,
      List.find?, List.findIdx?, List.insertionSort, List.orderedInsert,
      SessionPOC.vaExpand, SessionPOC.value_area_pct]
    all_goals try simp
    all_goals try norm_num
  unfold vaTraceState
  rw [e1, e2, e3, e4, e5]

/-- C3 counterexample: the claim says removing either the VAH or the VAL
boundary bucket drops the value-area volume strictly below
`value_area_fraction * total_volume`.  On the reachable five-bar state
`vaTraceState` (buckets 100..104 with volumes 3, 5, 100, 4, 99), the
recomputed value area is `[VAL, VAH] = [101, 104]` with band volume 208 and
target `211 * 0.7 = 147.7`; removing the VAL boundary bucket (volume 5)
leaves 203, which is still at least the target, so VAL is not minimal.  (The
bucket at 100 lies below VAL, so the bounds were not exhausted.) -/
theorem C3_counterexample :
    vaTraceState.val = some 101 ∧ vaTraceState.vah = some 104 ∧
    vaTraceState.total_volume = 211 ∧
    SessionPOC.bandSum vaTraceState.volume_profile 101 104 = 208 ∧
    SessionPOC.lookupVol vaTraceState.volume_profile 101 = 5 ∧
    SessionPOC.lookupVol vaTraceState.volume_profile 100 = 3 ∧
    ¬ (SessionPOC.bandSum vaTraceState.volume_profile 101 104
        - SessionPOC.lookupVol vaTraceState.volume_profile 101
        < vaTraceState.total_volume * SessionPOC.value_area_pct) := by
  rw [vaTraceState_eval]
  norm_num [vaS5, SessionPOC.bandSum, SessionPOC.lookupVol, List.find?,
    SessionPOC.value_area_pct, List.filter]

namespace IB

/-- IB width classes; the source uses the strings `narrow`, `medium`, `wide`. -/
inductive IBClass where
  | narrow
  | medium
  | wide
deriving Repr, DecidableEq

/-- IB window start 9:30 (minutes after midnight). -/
def ib_start : ℚ := 570

/-- IB window end 10:30. -/
def ib_end : ℚ := 630

/-- Rolling history bound (`rolling_period`, default 20). -/
def rolling_period : ℕ := 20

/-- `narrow_threshold` as constructed by the strategy (parameter default 0.70). -/
def narrow_threshold : ℚ := 7/10

/-- `wide_threshold` as constructed by the strategy (parameter default 1.30). -/
def wide_threshold : ℚ := 13/10

/-- State of `InitialBalanceIndicator`; `ib_ranges` is the rolling deque,
oldest first. -/
structure State where
  current_date : Option ℤ
  ibh : Option ℚ
  ibl : Option ℚ
  ib_volume : ℚ
  ib_complete : Bool
  ib_ranges : List ℚ
  is_ready : Bool
deriving Repr, DecidableEq

/-- Initial state from `__init__`. -/
def initState : State :=
  { current_date := none, ibh := none, ibl := none, ib_volume := 0,
    ib_complete := false, ib_ranges := [], is_ready := false }

/-- The `ib_range` property: `ibh - ibl` when both are set. -/
def ibRange (s : State) : Option ℚ :=
  match s.ibh, s.ibl with
  | some h, some l => some (h - l)
  | _, _ => none

/-- The `average_ib_range` property: mean of the rolling history. -/
def averageIbRange (s : State) : Option ℚ :=
  if s.ib_ranges = [] then none
  else some (s.ib_ranges.sum / s.ib_ranges.length)

/-- The `ib_ratio` property: current range over rolling average, defined as
`1.0` when the average is exactly 0. -/
def ibRatioValue (s : State) : Option ℚ :=
  match ibRange s, averageIbRange s with
  | some r, some avg => if avg = 0 then some 1 else some (r / avg)
  | _, _ => none

/-- The `get_ib_classification` method. -/
def getIbClassification (s : State) : Option IBClass :=
  match ibRatioValue s with
  | none => none
  | some r =>
    if r < narrow_threshold then some IBClass.narrow
    else if r > wide_threshold then some IBClass.wide
    else some IBClass.medium

/-- `deque(maxlen=20).append`: evict the oldest entry when full. -/
def pushBounded (l : List ℚ) (r : ℚ) : List ℚ :=
  if l.length = rolling_period then l.drop 1 ++ [r] else l ++ [r]

/-- The `reset_session` method. -/
def resetSession (s : State) : State :=
  { s with ibh := none, ibl := none, ib_volume := 0, ib_complete := false }

/-- New-session handling at the top of `update`: on a date change, first save
the previous IB range (only if that IB completed with a strictly positive
range), then reset for the new day. -/
def rollover (s : State) (date : ℤ) : State :=
  if s.current_date = some date then s
  else
    resetSession
      { s with
        ib_ranges :=
          match ibRange s with
          | some r =>
            if s.ib_complete = true ∧ 0 < r then pushBounded s.ib_ranges r
            else s.ib_ranges
          | none => s.ib_ranges,
        current_date := some date }

/-- The in-window / completion part of `update`. -/
def windowStep (s : State) (bar : SessionPOC.Bar) (tod : ℚ) : State :=
  if ib_start ≤ tod ∧ tod < ib_end then
    { s with
      ibh := match s.ibh with
        | none => some bar.high
        | some h => if bar.high > h then some bar.high else some h,
      ibl := match s.ibl with
        | none => some bar.low
        | some l => if bar.low < l then some bar.low else some l,
      ib_volume := s.ib_volume + bar.volume }
  else if ib_end ≤ tod ∧ s.ib_complete = false then
    { s with ib_complete := true, is_ready := decide (5 ≤ s.ib_ranges.length) }
  else s

/-- The `update` method. -/
def update (s : State) (bar : SessionPOC.Bar) (date : ℤ) (tod : ℚ) : State :=
  windowStep (rollover s date) bar tod

end IB

/-- Accumulator for `specCompletedIbRanges`. -/
structure SpecIbAcc where
  cur_date : Option ℤ
  hi : Option ℚ
  lo : Option ℚ
  completed : Bool
  out : List ℚ
deriving Repr, DecidableEq

/-- One bar of the claim-side session fold: sessions are delimited by calendar
date; in-window bars extend the session high/low; the first bar at/after the
window end completes the session and records its IB range. -/
def specIbStep (acc : SpecIbAcc) (bar : SessionPOC.Bar) (date : ℤ) (tod : ℚ) :
    SpecIbAcc :=
  let acc2 :=
    if acc.cur_date = some date then acc
    else { acc with cur_date := some date, hi := none, lo := none, completed := false }
  if IB.ib_start ≤ tod ∧ tod < IB.ib_end then
    { acc2 with
      hi := some (match acc2.hi with | none => bar.high | some h => max h bar.high),
      lo := some (match acc2.lo with | none => bar.low | some l => min l bar.low) }
  else if IB.ib_end ≤ tod ∧ acc2.completed = false then
    { acc2 with
      completed := true,
      out := match acc2.hi, acc2.lo with
        | some h, some l => acc2.out ++ [h - l]
        | _, _ => acc2.out }
  else acc2

/-- IB ranges of the completed sessions of a bar trace, following the claim's
words: a session is completed once a bar at/after the IB window end arrives
that day, and its IB range is the high-low range accumulated over that day's
in-window bars (every completed session counts, whatever its range). -/
def specCompletedIbRanges (trace : List (SessionPOC.Bar × ℤ × ℚ)) : List ℚ :=
  (trace.foldl (fun a e => specIbStep a e.1 e.2.1 e.2.2)
    { cur_date := none, hi := none, lo := none, completed := false, out := [] }).out

/-- The code-side IB state after a trace of bars. -/
def ibTraceFinal (trace : List (SessionPOC.Bar × ℤ × ℚ)) : IB.State :=
  trace.foldl (fun s e => IB.update s e.1 e.2.1 e.2.2) IB.initState

/-- The six-bar, three-day trace used for the C7 counterexample: day 0 forms
a completed IB of range 10; day 1 forms a completed IB of range 0 (constant
price through the window); day 2 has formed an IB of range 8 and is still in
its window when the classification is read. -/
def ibTrace : List (SessionPOC.Bar × ℤ × ℚ) :=
  [(⟨4510, 4500, 4505, 1⟩, 0, 570), (⟨4505, 4504, 4504, 1⟩, 0, 630),
   (⟨4500, 4500, 4500, 1⟩, 1, 570), (⟨4500, 4500, 4500, 1⟩, 1, 600),
   (⟨4500, 4500, 4500, 1⟩, 1, 630),
   (⟨4508, 4500, 4504, 1⟩, 2, 570)]


/-- Intermediate IB state 1 of the C7 trace. -/
def ibS1 : IB.State :=
  { current_date := some 0, ibh := some 4510, ibl := some 4500, ib_volume := 1,
    ib_complete := false, ib_ranges := [], is_ready := false }

/-- Intermediate IB state 2 of the C7 trace. -/
def ibS2 : IB.State :=
  { current_date := some 0, ibh := some 4510, ibl := some 4500, ib_volume := 1,
    ib_complete := true, ib_ranges := [], is_ready := false }

/-- Intermediate IB state 3 of the C7 trace. -/
def ibS3 : IB.State :=
  { current_date := some 1, ibh := some 4500, ibl := some 4500, ib_volume := 1,
    ib_complete := false, ib_ranges := [10], is_ready := false }

/-- Intermediate IB state 4 of the C7 trace. -/
def ibS4 : IB.State :=
  { current_date := some 1, ibh := some 4500, ibl := some 4500, ib_volume := 2,
    ib_complete := false, ib_ranges := [10], is_ready := false }

/-- Intermediate IB state 5 of the C7 trace. -/
def ibS5 : IB.State :=
  { current_date := some 1, ibh := some 4500, ibl := some 4500, ib_volume := 2,
    ib_complete := true, ib_ranges := [10], is_ready := false }

/-- Intermediate IB state 6 of the C7 trace. -/
def ibS6 : IB.State :=
  { current_date := some 2, ibh := some 4508, ibl := some 4500, ib_volume := 1,
    ib_complete := false, ib_ranges := [10], is_ready := false }

theorem ibTraceFinal_eval : ibTraceFinal ibTrace = ibS6 := by
  have h1 : IB.update IB.initState ⟨4510, 4500, 4505, 1⟩ 0 570 = ibS1 := by
    norm_num [IB.update, IB.rollover, IB.windowStep, IB.resetSession,
      IB.pushBounded, IB.ibRange, IB.initState, ibS1, ibS2, ibS3, ibS4, ibS5,
      ibS6, IB.ib_start, IB.ib_end, IB.rolling_period]
    all_goals try simp
    all_goals try norm_num
  have h2 : IB.update ibS1 ⟨4505, 4504, 4504, 1⟩ 0 630 = ibS2 := by
    norm_num [IB.update, IB.rollover, IB.windowStep, IB.resetSession,
      IB.pushBounded, IB.ibRange, IB.initState, ibS1, ibS2, ibS3, ibS4, ibS5,
      ibS6, IB.ib_start, IB.ib_end, IB.rolling_period]
    all_goals try simp
    all_goals try norm_num
  have h3 : IB.update ibS2 ⟨4500, 4500, 4500, 1⟩ 1 570 = ibS3 := by
    norm_num [IB.update, IB.rollover, IB.windowStep, IB.resetSession,
      IB.pushBounded, IB.ibRange, IB.initState, ibS1, ibS2, ibS3, ibS4, ibS5,
      ibS6, IB.ib_start, IB.ib_end, IB.rolling_period]
    all_goals try simp
    all_goals try norm_num
  have h4 : IB.update ibS3 ⟨4500, 4500, 4500, 1⟩ 1 600 = ibS4 := by
    norm_num [IB.update, IB.rollover, IB.windowStep, IB.resetSession,
      IB.pushBounded, IB.ibRange, IB.initState, ibS1, ibS2, ibS3, ibS4, ibS5,
      ibS6, IB.ib_start, IB.ib_end, IB.rolling_period]
    all_goals try simp
    all_goals try norm_num
  have h5 : IB.update ibS4 ⟨4500, 4500, 4500, 1⟩ 1 630 = ibS5 := by
    norm_num [IB.update, IB.rollover, IB.windowStep, IB.resetSession,
      IB.pushBounded, IB.ibRange, IB.initState, ibS1, ibS2, ibS3, ibS4, ibS5,
      ibS6, IB.ib_start, IB.ib_end, IB.rolling_period]
    all_goals try simp
    all_goals try norm_num
  have h6 : IB.update ibS5 ⟨4508, 4500, 4504, 1⟩ 2 570 = ibS6 := by
    norm_num [IB.update, IB.rollover, IB.windowStep, IB.resetSession,
      IB.pushBounded, IB.ibRange, IB.initState, ibS1, ibS2, ibS3, ibS4, ibS5,
      ibS6, IB.ib_start, IB.ib_end, IB.rolling_period]
    all_goals try simp
    all_goals try norm_num
  simp only [ibTraceFinal, ibTrace, List.foldl]
  rw [h1, h2, h3, h4, h5, h6]

theorem specCompletedIbRanges_eval : specCompletedIbRanges ibTrace = [10, 0] := by
  have g1 : specIbStep (⟨none, none, none, false, []⟩ : SpecIbAcc)
      ⟨4510, 4500, 4505, 1⟩ 0 570
      = (⟨some 0, some 4510, some 4500, false, []⟩ : SpecIbAcc) := by
    norm_num [specIbStep, IB.ib_start, IB.ib_end]
    all_goals try simp
    all_goals try norm_num
  have g2 : specIbStep (⟨some 0, some 4510, some 4500, false, []⟩ : SpecIbAcc)
      ⟨4505, 4504, 4504, 1⟩ 0 630
      = (⟨some 0, some 4510, some 4500, true, [10]⟩ : SpecIbAcc) := by
    norm_num [specIbStep, IB.ib_start, IB.ib_end]
    all_goals try simp
    all_goals try norm_num
  have g3 : specIbStep (⟨some 0, some 4510, some 4500, true, [10]⟩ : SpecIbAcc)
      ⟨4500, 4500, 4500, 1⟩ 1 570
      = (⟨some 1, some 4500, some 4500, false, [10]⟩ : SpecIbAcc) := by
    norm_num [specIbStep, IB.ib_start, IB.ib_end]
    all_goals try simp
    all_goals try norm_num
  have g4 : specIbStep (⟨some 1, some 4500, some 4500, false, [10]⟩ : SpecIbAcc)
      ⟨4500, 4500, 4500, 1⟩ 1 600
      = (⟨some 1, some 4500, some 4500, false, [10]⟩ : SpecIbAcc) := by
    norm_num [specIbStep, IB.ib_start, IB.ib_end]
    all_goals try simp
    all_goals try norm_num
  have g5 : specIbStep (⟨some 1, some 4500, some 4500, false, [10]⟩ : SpecIbAcc)
      ⟨4500, 4500, 4500, 1⟩ 1 630
      = (⟨some 1, some 4500, some 4500, true, [10, 0]⟩ : SpecIbAcc) := by
    norm_num [specIbStep, IB.ib_start, IB.ib_end]
    all_goals try simp
    all_goals try norm_num
  have g6 : specIbStep (⟨some 1, some 4500, some 4500, true, [10, 0]⟩ : SpecIbAcc)
      ⟨4508, 4500, 4504, 1⟩ 2 570
      = (⟨some 2, some 4508, some 4500, false, [10, 0]⟩ : SpecIbAcc) := by
    norm_num [specIbStep, IB.ib_start, IB.ib_end]
    all_goals try simp
    all_goals try norm_num
  simp only [specCompletedIbRanges, ibTrace, List.foldl]
  rw [g1, g2, g3, g4, g5, g6]

/-- C7 counterexample: the claim requires `avg_range` to be the arithmetic
mean of exactly the most recent (at most 20) completed sessions' IB ranges.
On `ibTrace` the completed sessions have IB ranges `[10, 0]`, whose mean is 5,
and the current session's range is 8, giving ratio `8/5 = 1.6 > 1.30`, so the
claim mandates classification `wide`; the code, however, never appended the
completed zero-range session to its rolling history (it keeps only completed
sessions with positive range), computes `avg = 10` and ratio `0.8`, and
returns `medium`. -/
theorem C7_counterexample :
    IB.getIbClassification (ibTraceFinal ibTrace) = some IB.IBClass.medium
    ∧ IB.ibRange (ibTraceFinal ibTrace) = some 8
    ∧ (ibTraceFinal ibTrace).ib_ranges = [10]
    ∧ specCompletedIbRanges ibTrace = [10, 0]
    ∧ ¬ ((8 : ℚ) / (((10 : ℚ) + 0) / 2) ≤ IB.wide_threshold) := by
  rw [ibTraceFinal_eval, specCompletedIbRanges_eval]
  norm_num [ibS6, IB.ibRange, IB.averageIbRange, IB.ibRatioValue,
    IB.getIbClassification, IB.narrow_threshold, IB.wide_threshold]

theorem IB.windowStep_ranges (s : IB.State) (bar : SessionPOC.Bar) (tod : ℚ) :
    (IB.windowStep s bar tod).ib_ranges = s.ib_ranges := by
  unfold IB.windowStep
  split_ifs <;> rfl

/-- C7 (amended): whenever the IB range and the rolling average are defined
and the average is nonzero, the classification is `narrow` iff
`ib_range / avg_range < 0.70`, `wide` iff the ratio exceeds `1.30`, and
`medium` otherwise — where `avg_range` is the arithmetic mean of the rolling
history, and the history retains (bounded to the most recent 20) exactly the
completed sessions whose IB range was strictly positive: on a session change
`update` appends the previous range precisely when that session's IB had
completed with positive range. -/
theorem IB.getIbClassification_of_ratio (s : IB.State) (q : ℚ)
    (h : IB.ibRatioValue s = some q) :
    IB.getIbClassification s
      = if q < IB.narrow_threshold then some IB.IBClass.narrow
        else if q > IB.wide_threshold then some IB.IBClass.wide
        else some IB.IBClass.medium := by
  unfold IB.getIbClassification
  rw [h]

theorem C7_amended_classification (s : IB.State) (bar : SessionPOC.Bar)
    (date : ℤ) (tod : ℚ) (r avg : ℚ)
    (hr : IB.ibRange s = some r) (havg : IB.averageIbRange s = some avg)
    (h0 : avg ≠ 0) :
    (IB.getIbClassification s = some IB.IBClass.narrow
        ↔ r / avg < IB.narrow_threshold) ∧
    (IB.getIbClassification s = some IB.IBClass.wide
        ↔ IB.wide_threshold < r / avg) ∧
    (IB.getIbClassification s = some IB.IBClass.medium
        ↔ (IB.narrow_threshold ≤ r / avg ∧ r / avg ≤ IB.wide_threshold)) ∧
    ((IB.update s bar date tod).ib_ranges
        = if s.current_date ≠ some date ∧ s.ib_complete = true ∧ 0 < r
          then IB.pushBounded s.ib_ranges r else s.ib_ranges) := by
  have hratio : IB.ibRatioValue s = some (r / avg) := by
    unfold IB.ibRatioValue
    rw [hr, havg]
    simp [h0]
  refine ⟨?_, ?_, ?_, ?_⟩
  · rw [IB.getIbClassification_of_ratio s (r / avg) hratio]
    by_cases h1 : r / avg < IB.narrow_threshold
    · simp [h1]
    · rw [if_neg h1]
      by_cases h2 : r / avg > IB.wide_threshold
      · rw [if_pos h2]
        simp [h1]
      · rw [if_neg h2]
        simp [h1]
  · rw [IB.getIbClassification_of_ratio s (r / avg) hratio]
    by_cases h1 : r / avg < IB.narrow_threshold
    · rw [if_pos h1]
      have h3 : ¬ IB.wide_threshold < r / avg := by
        have : IB.narrow_threshold < IB.wide_threshold := by
          norm_num [IB.narrow_threshold, IB.wide_threshold]
        push_neg
        linarith
      simp [h3]
    · rw [if_neg h1]
      by_cases h2 : r / avg > IB.wide_threshold
      · rw [if_pos h2]
        simp [h2]
      · rw [if_neg h2]
        simp
        exact not_lt.mp h2
  · rw [IB.getIbClassification_of_ratio s (r / avg) hratio]
    by_cases h1 : r / avg < IB.narrow_threshold
    · rw [if_pos h1]
      simp
      intro hcon
      exact absurd h1 (not_lt.mpr hcon)
    · rw [if_neg h1]
      by_cases h2 : r / avg > IB.wide_threshold
      · rw [if_pos h2]
        simp
        intro _
        exact h2
      · rw [if_neg h2]
        simp [not_lt.mp h1, not_lt.mp h2]
  · unfold IB.update
    rw [IB.windowStep_ranges]
    unfold IB.rollover
    by_cases hd : s.current_date = some date
    · rw [if_pos hd]
      simp [hd]
    · rw [if_neg hd]
      rw [show (IB.resetSession
          { s with
            ib_ranges :=
              match IB.ibRange s with
              | some r2 =>
                if s.ib_complete = true ∧ 0 < r2 then IB.pushBounded s.ib_ranges r2
                else s.ib_ranges
              | none => s.ib_ranges,
            current_date := some date }).ib_ranges
        = match IB.ibRange s with
          | some r2 =>
            if s.ib_complete = true ∧ 0 < r2 then IB.pushBounded s.ib_ranges r2
            else s.ib_ranges
          | none => s.ib_ranges from rfl]
      rw [hr]
      simp [hd]

/-- Witness for the amended C7 at the concrete day-2 state of the trace. -/
theorem C7_amended_classification_witness :
    (IB.getIbClassification ibS6 = some IB.IBClass.narrow
        ↔ (8 : ℚ) / 10 < IB.narrow_threshold) ∧
    (IB.getIbClassification ibS6 = some IB.IBClass.wide
        ↔ IB.wide_threshold < (8 : ℚ) / 10) ∧
    (IB.getIbClassification ibS6 = some IB.IBClass.medium
        ↔ (IB.narrow_threshold ≤ (8 : ℚ) / 10 ∧ (8 : ℚ) / 10 ≤ IB.wide_threshold)) ∧
    ((IB.update ibS6 ⟨4500, 4500, 4500, 1⟩ 3 570).ib_ranges
        = if ibS6.current_date ≠ some 3 ∧ ibS6.ib_complete = true ∧ (0 : ℚ) < 8
          then IB.pushBounded ibS6.ib_ranges 8 else ibS6.ib_ranges) :=
  C7_amended_classification ibS6 ⟨4500, 4500, 4500, 1⟩ 3 570 8 10
    (by norm_num [IB.ibRange, ibS6])
    (by norm_num [IB.averageIbRange, ibS6]) (by norm_num)

namespace Engine

/-- Orders sent to the execution gateway: `market_order(symbol, qty)` (signed)
and `liquidate(symbol)`. -/
inductive OrderEvent where
  | market (qty : ℤ)
  | liquidate
deriving Repr, DecidableEq

/-- Trade direction as used by `_check_entry_signals` (the source uses the
strings `long` / `short`). -/
inductive Dir where
  | long
  | short
deriving Repr, DecidableEq

/-- The session phases of the `TradingPhase` enum. -/
inductive Phase where
  | preMarket
  | ibFormation
  | trading
  | eodManagement
  | closed
deriving Repr, DecidableEq

/-- The `_position` dict.  `took_part` models the source's scale-out-taken
flag (`took_`&`partial` in the Python dict); the `entry_time` field is only
ever written, never read, and is omitted. -/
structure Position where
  is_long : Bool
  is_short : Bool
  entry_price : ℚ
  stop_loss : ℚ
  target_poc : ℚ
  target_midpoint : ℚ
  quantity : ℤ
  remaining_quantity : ℤ
  at_breakeven : Bool
  took_part : Bool
  setup_score : ℤ
deriving Repr, DecidableEq

/-- The `_daily_stats` dict (`max_drawdown` is never updated or read by the
decision logic and is omitted). -/
structure DailyStats where
  stats_date : Option ℤ
  trades_taken : ℕ
  wins : ℕ
  losses : ℕ
  daily_pnl : ℚ
deriving Repr, DecidableEq

/-- Mutable state of the decision engine.  The session-logging flags
(`_logged_prior_day`, `_logged_ib`) gate only debug output and are omitted. -/
structure EngineState where
  position : Position
  stats : DailyStats
deriving Repr, DecidableEq

/-- Per-bar input to the decision logic: the bar plus the (read-only)
indicator snapshots, the portfolio value and the security price used by
`_close_position`.  In the source these are produced by the indicator
`update` calls at the top of `on_data`; the decision code consumes them as
values, so they are inputs of the shallow embedding. -/
structure Inp where
  bar : SessionPOC.Bar
  date : ℤ
  tod : ℚ
  ib_is_ready : Bool
  poc_is_ready : Bool
  ib_complete : Bool
  ibh : Option ℚ
  ibl : Option ℚ
  ib_range : Option ℚ
  ib_midpoint : Option ℚ
  ib_classification : Option IB.IBClass
  ib_volume : ℚ
  poc : Option ℚ
  any_bullish : Bool
  any_bearish : Bool
  is_trend_day_likely : Bool
  portfolio_value : ℚ
  sec_close : ℚ
deriving Repr, DecidableEq

/-- 9:30 AM market open. -/
def marketOpen : ℚ := 570

/-- 10:30 AM IB end. -/
def ibEnd : ℚ := 630

/-- 2:30 PM new-entry cutoff. -/
def newEntryCutoff : ℚ := 870

/-- 3:00 PM stop-tightening time. -/
def tightenStopsTime : ℚ := 900

/-- 3:45 PM forced-close time. -/
def closeAllTime : ℚ := 945

/-- `risk_per_trade` default 1%. -/
def riskPerTrade : ℚ := 1/100

/-- `max_daily_risk` default 3%. -/
def maxDailyRisk : ℚ := 3/100

/-- `stop_ib_multiplier` default 0.5. -/
def stopIbMultiplier : ℚ := 1/2

/-- `min_rr_ratio` default 2.0. -/
def minRR : ℚ := 2

/-- `min_extension` default 0.5. -/
def minExtension : ℚ := 1/2

/-- `max_extension` default 1.5. -/
def maxExtension : ℚ := 3/2

/-- `optimal_extension_low` default 0.5. -/
def optExtLow : ℚ := 1/2

/-- `optimal_extension_high` default 1.0. -/
def optExtHigh : ℚ := 1

/-- `min_score_to_trade` default 4. -/
def minScore : ℤ := 4

/-- `_contract_multiplier` (MES, \$5 per point). -/
def contractMultiplier : ℚ := 5

/-- The `_init_position_dict` method. -/
def initPosition : Position :=
  { is_long := false, is_short := false, entry_price := 0, stop_loss := 0,
    target_poc := 0, target_midpoint := 0, quantity := 0,
    remaining_quantity := 0, at_breakeven := false, took_part := false,
    setup_score := 0 }

/-- The `_init_daily_stats` method. -/
def initStats : DailyStats :=
  { stats_date := none, trades_taken := 0, wins := 0, losses := 0, daily_pnl := 0 }

/-- Initial engine state from `initialize`. -/
def initEngine : EngineState := { position := initPosition, stats := initStats }

/-- The `_determine_phase` method (pure function of time of day). -/
def determinePhase (tod : ℚ) : Phase :=
  if tod < marketOpen then Phase.preMarket
  else if tod < ibEnd then Phase.ibFormation
  else if tod < newEntryCutoff then Phase.trading
  else if tod < closeAllTime then Phase.eodManagement
  else Phase.closed

/-- `get_extension_amount` of the IB indicator, applied to the snapshot. -/
def getExtensionAmount (inp : Inp) (price : ℚ) (dir : Dir) : Option ℚ :=
  match inp.ib_range with
  | none => none
  | some ibr =>
    if ibr = 0 then none
    else
      match dir, inp.ibl, inp.ibh with
      | Dir.long, some l, _ => if 0 < l - price then some ((l - price) / ibr) else some 0
      | Dir.short, _, some h => if 0 < price - h then some ((price - h) / ibr) else some 0
      | _, _, _ => none

/-- Size multiplier by IB classification (`narrow` halves the size; `wide`
and `medium` use the full size, which is also the fallback for a missing
classification). -/
def sizeMult (cls : Option IB.IBClass) : ℚ :=
  match cls with
  | some IB.IBClass.narrow => 1/2
  | some IB.IBClass.wide => 1
  | _ => 1

/-- The `_calculate_position_size` method; `int(...)` truncates toward 0. -/
def calculatePositionSize (stopDist : ℚ) (cls : Option IB.IBClass) (pv : ℚ) : ℤ :=
  if stopDist ≤ 0 then 0
  else if pyTrunc (pv * riskPerTrade * sizeMult cls / (stopDist * contractMultiplier)) = 0
      ∧ 10000 < pv then 1
  else pyTrunc (pv * riskPerTrade * sizeMult cls / (stopDist * contractMultiplier))

/-- The `_calculate_setup_score` method (0-10). -/
def calculateSetupScore (inp : Inp) (ext : ℚ) (conf : Bool) (volDecl : Bool)
    (rr : ℚ) : ℤ :=
  (if inp.ib_classification = some IB.IBClass.medium
      ∨ inp.ib_classification = some IB.IBClass.wide then 2 else 0)
  + 2
  + (if optExtLow ≤ ext ∧ ext ≤ optExtHigh then 2 else 0)
  + (if conf = true then 1 else 0)
  + (if volDecl = true then 1 else 0)
  + (if (5/2 : ℚ) ≤ rr then 1 else 0)
  + (if 630 ≤ inp.tod ∧ inp.tod ≤ 750 then 1 else 0)

/-- The `volume_declining` filter of `_check_entry_signals`. -/
def volumeDeclining (inp : Inp) : Bool :=
  if 0 < inp.ib_volume then decide (inp.bar.volume < inp.ib_volume / 60) else true

/-- The scale-out midpoint recorded at entry:
`ib_data.get('ib_midpoint', (ibh + ibl) / 2)` (on the entry path both `ibh`
and `ibl` are set; the final 0 arm is dead code standing in for the exception
Python would raise on `None` arithmetic). -/
def midpointOf (inp : Inp) : ℚ :=
  match inp.ib_midpoint with
  | some m => m
  | none =>
    match inp.ibh, inp.ibl with
    | some h, some l => (h + l) / 2
    | _, _ => 0

/-- Confirmation candle flag matching the trade direction. -/
def dirConf (inp : Inp) : Dir → Bool
  | Dir.long => inp.any_bullish
  | Dir.short => inp.any_bearish

/-- Profit distance to the POC target. -/
def profitDistOf (dir : Dir) (price target : ℚ) : ℚ :=
  match dir with
  | Dir.long => target - price
  | Dir.short => price - target

/-- Protective stop placed `stopDist` beyond entry against the position. -/
def stopOf (dir : Dir) (price stopDist : ℚ) : ℚ :=
  match dir with
  | Dir.long => price - stopDist
  | Dir.short => price + stopDist

/-- State/order effect of a validated entry: the tail of `_execute_entry`
after the position-size guard (market order, position fields, trade count). -/
def entryApply (dir : Dir) (entry stop target : ℚ) (inp : Inp) (score : ℤ)
    (s : EngineState) (q : ℤ) : EngineState × List OrderEvent :=
  ({ s with
     position :=
      { s.position with
        is_long := (if dir = Dir.long then true else s.position.is_long),
        is_short := (if dir = Dir.long then s.position.is_short else true),
        entry_price := entry, stop_loss := stop, target_poc := target,
        target_midpoint := midpointOf inp,
        quantity := q, remaining_quantity := q,
        at_breakeven := false, took_part := false, setup_score := score },
     stats := { s.stats with trades_taken := s.stats.trades_taken + 1 } },
   [OrderEvent.market (if dir = Dir.long then q else -q)])

/-- The `_execute_entry` method. -/
def executeEntry (dir : Dir) (entry stop target : ℚ) (inp : Inp) (score : ℤ)
    (s : EngineState) : EngineState × List OrderEvent :=
  if calculatePositionSize |entry - stop| inp.ib_classification inp.portfolio_value = 0
  then (s, [])
  else entryApply dir entry stop target inp score s
    (calculatePositionSize |entry - stop| inp.ib_classification inp.portfolio_value)

/-- Stage of `_check_entry_signals` from the R:R check on (direction,
extension and confirmation already validated, POC target resolved). -/
def entryStage3 (s : EngineState) (inp : Inp) (dir : Dir) (e : ℚ)
    (stopDist target : ℚ) : EngineState × List OrderEvent :=
  if profitDistOf dir inp.bar.close target ≤ 0 then (s, [])
  else if profitDistOf dir inp.bar.close target / stopDist < minRR then (s, [])
  else if calculateSetupScore inp e (dirConf inp dir) (volumeDeclining inp)
      (profitDistOf dir inp.bar.close target / stopDist) < minScore then (s, [])
  else executeEntry dir inp.bar.close (stopOf dir inp.bar.close stopDist) target inp
    (calculateSetupScore inp e (dirConf inp dir) (volumeDeclining inp)
      (profitDistOf dir inp.bar.close target / stopDist)) s

/-- Stage of `_check_entry_signals` handling the extension-range check, the
confirmation candle and the POC lookup. -/
def entryStage2 (s : EngineState) (inp : Inp) (dir : Dir) (extOpt : Option ℚ)
    (ibr : ℚ) : EngineState × List OrderEvent :=
  match extOpt with
  | none => (s, [])
  | some e =>
    if e = 0 then (s, [])
    else if e < minExtension ∨ maxExtension < e then (s, [])
    else if dirConf inp dir = false then (s, [])
    else
      match inp.poc with
      | none => (s, [])
      | some target => entryStage3 s inp dir e (ibr * stopIbMultiplier) target

/-- The `_check_entry_signals` method. -/
def checkEntrySignals (s : EngineState) (inp : Inp) : EngineState × List OrderEvent :=
  if inp.ib_is_ready = false ∨ inp.poc_is_ready = false then (s, [])
  else if inp.ib_complete = false then (s, [])
  else if inp.is_trend_day_likely = true then (s, [])
  else if s.stats.daily_pnl ≤ -(maxDailyRisk * inp.portfolio_value) then (s, [])
  else
    match inp.ibh, inp.ibl, inp.ib_range with
    | some ibh, some ibl, some ibr =>
      if ibr = 0 then (s, [])
      else if ibh < inp.bar.close then
        entryStage2 s inp Dir.short (getExtensionAmount inp inp.bar.close Dir.short) ibr
      else if inp.bar.close < ibl then
        entryStage2 s inp Dir.long (getExtensionAmount inp inp.bar.close Dir.long) ibr
      else (s, [])
    | _, _, _ => (s, [])

end Engine

namespace Engine

/-- P&L computed by `_close_position` from the security's current close. -/
def closePnl (s : EngineState) (inp : Inp) : ℚ :=
  if s.position.is_long = true then
    (inp.sec_close - s.position.entry_price) * (s.position.quantity : ℚ) * contractMultiplier
  else
    (s.position.entry_price - inp.sec_close) * (s.position.quantity : ℚ) * contractMultiplier

/-- The `_close_position` method: liquidate, update daily stats, reset the
position.  (The `self._symbol is None` guard cannot fire here: `on_data`
returns before any handler runs when no symbol is subscribed.) -/
def closePosition (s : EngineState) (inp : Inp) : EngineState × List OrderEvent :=
  ({ position := initPosition,
     stats :=
      { s.stats with
        daily_pnl := s.stats.daily_pnl + closePnl s inp,
        wins := if 0 < closePnl s inp then s.stats.wins + 1 else s.stats.wins,
        losses := if 0 < closePnl s inp then s.stats.losses else s.stats.losses + 1 } },
   [OrderEvent.liquidate])

/-- The `_apply_eod_management` method (after 3:00 PM, pull the stop halfway
toward the current price, only ever in the protective direction). -/
def applyEod (s : EngineState) (price : ℚ) (dir : Dir) (tod : ℚ) : EngineState :=
  if tightenStopsTime ≤ tod then
    match dir with
    | Dir.long =>
      if s.position.stop_loss < price - (price - s.position.stop_loss) * (1/2) then
        { s with position :=
          { s.position with stop_loss := price - (price - s.position.stop_loss) * (1/2) } }
      else s
    | Dir.short =>
      if price + (s.position.stop_loss - price) * (1/2) < s.position.stop_loss then
        { s with position :=
          { s.position with stop_loss := price + (s.position.stop_loss - price) * (1/2) } }
      else s
  else s

/-- Breakeven step of `_manage_long_position`: once unrealized profit reaches
the current stop distance and the flag is not yet set, move the stop to the
entry price. -/
def breakevenStepLong (s : EngineState) (price : ℚ) : EngineState :=
  if s.position.at_breakeven = false
      ∧ s.position.entry_price - s.position.stop_loss ≤ price - s.position.entry_price then
    { s with position :=
      { s.position with stop_loss := s.position.entry_price, at_breakeven := true } }
  else s

/-- Breakeven step of `_manage_short_position`. -/
def breakevenStepShort (s : EngineState) (price : ℚ) : EngineState :=
  if s.position.at_breakeven = false
      ∧ s.position.stop_loss - s.position.entry_price ≤ s.position.entry_price - price then
    { s with position :=
      { s.position with stop_loss := s.position.entry_price, at_breakeven := true } }
  else s

/-- Scale-out step of `_manage_long_position`: at/above the IB midpoint with
no partial taken yet, sell `remaining // 2` contracts if that is positive. -/
def partialStepLong (s : EngineState) (price : ℚ) : EngineState × List OrderEvent :=
  if s.position.took_part = false ∧ s.position.target_midpoint ≤ price then
    if 0 < Int.fdiv s.position.remaining_quantity 2 then
      ({ s with position :=
          { s.position with
            remaining_quantity :=
              s.position.remaining_quantity - Int.fdiv s.position.remaining_quantity 2,
            took_part := true } },
       [OrderEvent.market (-(Int.fdiv s.position.remaining_quantity 2))])
    else (s, [])
  else (s, [])

/-- Scale-out step of `_manage_short_position`. -/
def partialStepShort (s : EngineState) (price : ℚ) : EngineState × List OrderEvent :=
  if s.position.took_part = false ∧ price ≤ s.position.target_midpoint then
    if 0 < Int.fdiv s.position.remaining_quantity 2 then
      ({ s with position :=
          { s.position with
            remaining_quantity :=
              s.position.remaining_quantity - Int.fdiv s.position.remaining_quantity 2,
            took_part := true } },
       [OrderEvent.market (Int.fdiv s.position.remaining_quantity 2)])
    else (s, [])
  else (s, [])

/-- Tail of `_manage_long_position`: POC-target exit, then EOD tightening. -/
def manageLongTail : EngineState × List OrderEvent → Inp → Bool → EngineState × List OrderEvent
  | (s, ords), inp, eod =>
    if s.position.target_poc ≤ inp.bar.close then
      ((closePosition s inp).1, ords ++ (closePosition s inp).2)
    else if eod = true then (applyEod s inp.bar.close Dir.long inp.tod, ords)
    else (s, ords)

/-- Tail of `_manage_short_position`. -/
def manageShortTail : EngineState × List OrderEvent → Inp → Bool → EngineState × List OrderEvent
  | (s, ords), inp, eod =>
    if inp.bar.close ≤ s.position.target_poc then
      ((closePosition s inp).1, ords ++ (closePosition s inp).2)
    else if eod = true then (applyEod s inp.bar.close Dir.short inp.tod, ords)
    else (s, ords)

/-- The `_manage_long_position` method. -/
def manageLong (s : EngineState) (inp : Inp) (eod : Bool) : EngineState × List OrderEvent :=
  if inp.bar.close ≤ s.position.stop_loss then closePosition s inp
  else manageLongTail (partialStepLong (breakevenStepLong s inp.bar.close) inp.bar.close) inp eod

/-- The `_manage_short_position` method. -/
def manageShort (s : EngineState) (inp : Inp) (eod : Bool) : EngineState × List OrderEvent :=
  if s.position.stop_loss ≤ inp.bar.close then closePosition s inp
  else manageShortTail (partialStepShort (breakevenStepShort s inp.bar.close) inp.bar.close) inp eod

/-- The POC-target refresh at the top of `_manage_position`
(`if poc_data and poc_data.get('poc')`: a `None` or `0.0` POC is falsy and
leaves the target unchanged). -/
def updatePocTarget (s : EngineState) (inp : Inp) : EngineState :=
  match inp.poc with
  | some p => if p = 0 then s else { s with position := { s.position with target_poc := p } }
  | none => s

/-- The `_manage_position` method. -/
def managePosition (s : EngineState) (inp : Inp) (eod : Bool) : EngineState × List OrderEvent :=
  if (updatePocTarget s inp).position.is_long = true then
    manageLong (updatePocTarget s inp) inp eod
  else if (updatePocTarget s inp).position.is_short = true then
    manageShort (updatePocTarget s inp) inp eod
  else ((updatePocTarget s inp), [])

/-- The daily-stats reset of `_handle_pre_market` (its debug logging and the
logging flags are omitted). -/
def handlePreMarket (s : EngineState) (inp : Inp) : EngineState :=
  if s.stats.stats_date = some inp.date then s
  else { s with stats := { initStats with stats_date := some inp.date } }

/-- One `on_data` call after the early guards: phase dispatch over the
current position state (indicator updates are modelled as the `Inp`
snapshot). -/
def step (s : EngineState) (inp : Inp) : EngineState × List OrderEvent :=
  match determinePhase inp.tod with
  | Phase.preMarket => (handlePreMarket s inp, [])
  | Phase.ibFormation => (s, [])
  | Phase.trading =>
    if s.position.is_long = true ∨ s.position.is_short = true then
      managePosition s inp false
    else checkEntrySignals s inp
  | Phase.eodManagement =>
    if s.position.is_long = true ∨ s.position.is_short = true then
      managePosition s inp true
    else (s, [])
  | Phase.closed =>
    if s.position.is_long = true ∨ s.position.is_short = true then
      closePosition s inp
    else (s, [])

/-- Engine states reachable from the freshly initialized engine by processing
bars. -/
inductive Reachable : EngineState → Prop
  | init : Reachable initEngine
  | next (s : EngineState) (inp : Inp) (h : Reachable s) : Reachable (step s inp).1

end Engine

theorem Engine.determinePhase_closed {tod : ℚ} (h : Engine.closeAllTime ≤ tod) :
    Engine.determinePhase tod = Engine.Phase.closed := by
  have h945 : (945 : ℚ) ≤ tod := by simpa [Engine.closeAllTime] using h
  unfold Engine.determinePhase
  rw [if_neg (by norm_num [Engine.marketOpen]; linarith),
    if_neg (by norm_num [Engine.ibEnd]; linarith),
    if_neg (by norm_num [Engine.newEntryCutoff]; linarith),
    if_neg (by norm_num [Engine.closeAllTime]; linarith)]

theorem Engine.step_preMarket (s : Engine.EngineState) (inp : Engine.Inp)
    (h : Engine.determinePhase inp.tod = Engine.Phase.preMarket) :
    Engine.step s inp = (Engine.handlePreMarket s inp, []) := by
  unfold Engine.step
  rw [h]

theorem Engine.step_ibFormation (s : Engine.EngineState) (inp : Engine.Inp)
    (h : Engine.determinePhase inp.tod = Engine.Phase.ibFormation) :
    Engine.step s inp = (s, []) := by
  unfold Engine.step
  rw [h]

theorem Engine.step_trading (s : Engine.EngineState) (inp : Engine.Inp)
    (h : Engine.determinePhase inp.tod = Engine.Phase.trading) :
    Engine.step s inp
      = if s.position.is_long = true ∨ s.position.is_short = true then
          Engine.managePosition s inp false
        else Engine.checkEntrySignals s inp := by
  unfold Engine.step
  rw [h]

theorem Engine.step_eod (s : Engine.EngineState) (inp : Engine.Inp)
    (h : Engine.determinePhase inp.tod = Engine.Phase.eodManagement) :
    Engine.step s inp
      = if s.position.is_long = true ∨ s.position.is_short = true then
          Engine.managePosition s inp true
        else (s, []) := by
  unfold Engine.step
  rw [h]

theorem Engine.step_closed (s : Engine.EngineState) (inp : Engine.Inp)
    (h : Engine.determinePhase inp.tod = Engine.Phase.closed) :
    Engine.step s inp
      = if s.position.is_long = true ∨ s.position.is_short = true then
          Engine.closePosition s inp
        else (s, []) := by
  unfold Engine.step
  rw [h]

/-- C6: whenever a position is open (long or short) and the bar's phase is
CLOSED (time at/after 3:45 PM), processing the bar liquidates the position
regardless of its profit or loss: the only order is a liquidation and the
position state is flat (fully reset) afterwards. -/
theorem C6_forced_close_flattens (s : Engine.EngineState) (inp : Engine.Inp)
    (htod : Engine.closeAllTime ≤ inp.tod)
    (hopen : s.position.is_long = true ∨ s.position.is_short = true) :
    (Engine.step s inp).1.position = Engine.initPosition ∧
    (Engine.step s inp).1.position.is_long = false ∧
    (Engine.step s inp).1.position.is_short = false ∧
    (Engine.step s inp).2 = [Engine.OrderEvent.liquidate] := by
  have hphase := Engine.determinePhase_closed htod
  rw [Engine.step_closed s inp hphase, if_pos hopen]
  exact ⟨rfl, rfl, rfl, rfl⟩

/-- Concrete open long position used as a witness state. -/
def sampleLongState : Engine.EngineState :=
  { position :=
      { is_long := true, is_short := false, entry_price := 4484 + 1/2,
        stop_loss := 4479 + 1/2, target_poc := 4497, target_midpoint := 4495,
        quantity := 2, remaining_quantity := 2, at_breakeven := false,
        took_part := false, setup_score := 6 },
    stats := Engine.initStats }

/-- Concrete input bar at 3:50 PM used as a witness input. -/
def sampleClosedInp : Engine.Inp :=
  { bar := ⟨4480, 4478, 4479, 100⟩, date := 0, tod := 950,
    ib_is_ready := true, poc_is_ready := true, ib_complete := true,
    ibh := some 4500, ibl := some 4490, ib_range := some 10,
    ib_midpoint := some 4495, ib_classification := some IB.IBClass.medium,
    ib_volume := 60000, poc := some 4497, any_bullish := false,
    any_bearish := false, is_trend_day_likely := false,
    portfolio_value := 100000, sec_close := 4479 }

/-- Witness for C6: a concrete losing long position at a 3:50 PM bar is
liquidated and the position is flat afterwards. -/
theorem C6_forced_close_flattens_witness :
    (Engine.step sampleLongState sampleClosedInp).1.position = Engine.initPosition ∧
    (Engine.step sampleLongState sampleClosedInp).1.position.is_long = false ∧
    (Engine.step sampleLongState sampleClosedInp).1.position.is_short = false ∧
    (Engine.step sampleLongState sampleClosedInp).2 = [Engine.OrderEvent.liquidate] :=
  C6_forced_close_flattens sampleLongState sampleClosedInp
    (by norm_num [Engine.closeAllTime, sampleClosedInp]) (Or.inl rfl)

theorem Engine.updatePocTarget_fields (s : Engine.EngineState) (inp : Engine.Inp) :
    (Engine.updatePocTarget s inp).position.is_long = s.position.is_long
    ∧ (Engine.updatePocTarget s inp).position.is_short = s.position.is_short
    ∧ (Engine.updatePocTarget s inp).position.entry_price = s.position.entry_price
    ∧ (Engine.updatePocTarget s inp).position.stop_loss = s.position.stop_loss
    ∧ (Engine.updatePocTarget s inp).position.at_breakeven = s.position.at_breakeven
    ∧ (Engine.updatePocTarget s inp).position.took_part = s.position.took_part
    ∧ (Engine.updatePocTarget s inp).position.remaining_quantity
        = s.position.remaining_quantity
    ∧ (Engine.updatePocTarget s inp).position.target_midpoint
        = s.position.target_midpoint := by
  unfold Engine.updatePocTarget
  split
  · split
    · exact ⟨rfl, rfl, rfl, rfl, rfl, rfl, rfl, rfl⟩
    · exact ⟨rfl, rfl, rfl, rfl, rfl, rfl, rfl, rfl⟩
  · exact ⟨rfl, rfl, rfl, rfl, rfl, rfl, rfl, rfl⟩

theorem Engine.breakevenStepLong_fields (s : Engine.EngineState) (price : ℚ) :
    (Engine.breakevenStepLong s price).position.is_long = s.position.is_long
    ∧ (Engine.breakevenStepLong s price).position.is_short = s.position.is_short
    ∧ (Engine.breakevenStepLong s price).position.entry_price = s.position.entry_price
    ∧ (Engine.breakevenStepLong s price).position.took_part = s.position.took_part
    ∧ (Engine.breakevenStepLong s price).position.remaining_quantity
        = s.position.remaining_quantity
    ∧ (Engine.breakevenStepLong s price).position.target_midpoint
        = s.position.target_midpoint
    ∧ (Engine.breakevenStepLong s price).position.target_poc = s.position.target_poc
    ∧ (Engine.breakevenStepLong s price).stats = s.stats := by
  unfold Engine.breakevenStepLong
  split_ifs
  · exact ⟨rfl, rfl, rfl, rfl, rfl, rfl, rfl, rfl⟩
  · exact ⟨rfl, rfl, rfl, rfl, rfl, rfl, rfl, rfl⟩

theorem Engine.breakevenStepShort_fields (s : Engine.EngineState) (price : ℚ) :
    (Engine.breakevenStepShort s price).position.is_long = s.position.is_long
    ∧ (Engine.breakevenStepShort s price).position.is_short = s.position.is_short
    ∧ (Engine.breakevenStepShort s price).position.entry_price = s.position.entry_price
    ∧ (Engine.breakevenStepShort s price).position.took_part = s.position.took_part
    ∧ (Engine.breakevenStepShort s price).position.remaining_quantity
        = s.position.remaining_quantity
    ∧ (Engine.breakevenStepShort s price).position.target_midpoint
        = s.position.target_midpoint
    ∧ (Engine.breakevenStepShort s price).position.target_poc = s.position.target_poc
    ∧ (Engine.breakevenStepShort s price).stats = s.stats := by
  unfold Engine.breakevenStepShort
  split_ifs
  · exact ⟨rfl, rfl, rfl, rfl, rfl, rfl, rfl, rfl⟩
  · exact ⟨rfl, rfl, rfl, rfl, rfl, rfl, rfl, rfl⟩

theorem Engine.partialStepLong_fields (s : Engine.EngineState) (price : ℚ) :
    ((Engine.partialStepLong s price).1.position.is_long = s.position.is_long
    ∧ (Engine.partialStepLong s price).1.position.is_short = s.position.is_short
    ∧ (Engine.partialStepLong s price).1.position.entry_price = s.position.entry_price
    ∧ (Engine.partialStepLong s price).1.position.stop_loss = s.position.stop_loss
    ∧ (Engine.partialStepLong s price).1.position.at_breakeven = s.position.at_breakeven
    ∧ (Engine.partialStepLong s price).1.position.target_poc = s.position.target_poc
    ∧ (Engine.partialStepLong s price).1.stats = s.stats) := by
  unfold Engine.partialStepLong
  split_ifs
  · exact ⟨rfl, rfl, rfl, rfl, rfl, rfl, rfl⟩
  · exact ⟨rfl, rfl, rfl, rfl, rfl, rfl, rfl⟩
  · exact ⟨rfl, rfl, rfl, rfl, rfl, rfl, rfl⟩

theorem Engine.partialStepShort_fields (s : Engine.EngineState) (price : ℚ) :
    ((Engine.partialStepShort s price).1.position.is_long = s.position.is_long
    ∧ (Engine.partialStepShort s price).1.position.is_short = s.position.is_short
    ∧ (Engine.partialStepShort s price).1.position.entry_price = s.position.entry_price
    ∧ (Engine.partialStepShort s price).1.position.stop_loss = s.position.stop_loss
    ∧ (Engine.partialStepShort s price).1.position.at_breakeven = s.position.at_breakeven
    ∧ (Engine.partialStepShort s price).1.position.target_poc = s.position.target_poc
    ∧ (Engine.partialStepShort s price).1.stats = s.stats) := by
  unfold Engine.partialStepShort
  split_ifs
  · exact ⟨rfl, rfl, rfl, rfl, rfl, rfl, rfl⟩
  · exact ⟨rfl, rfl, rfl, rfl, rfl, rfl, rfl⟩
  · exact ⟨rfl, rfl, rfl, rfl, rfl, rfl, rfl⟩

theorem Engine.applyEod_fields (s : Engine.EngineState) (price : ℚ)
    (dir : Engine.Dir) (tod : ℚ) :
    (Engine.applyEod s price dir tod).position.is_long = s.position.is_long
    ∧ (Engine.applyEod s price dir tod).position.is_short = s.position.is_short
    ∧ (Engine.applyEod s price dir tod).position.entry_price = s.position.entry_price
    ∧ (Engine.applyEod s price dir tod).position.at_breakeven = s.position.at_breakeven
    ∧ (Engine.applyEod s price dir tod).position.took_part = s.position.took_part
    ∧ (Engine.applyEod s price dir tod).position.remaining_quantity
        = s.position.remaining_quantity
    ∧ (Engine.applyEod s price dir tod).stats = s.stats := by
  unfold Engine.applyEod
  split_ifs
  all_goals cases dir
  all_goals exact ⟨rfl, rfl, rfl, rfl, rfl, rfl, rfl⟩

theorem Engine.applyEod_stop_mono_long (s : Engine.EngineState) (price tod : ℚ) :
    s.position.stop_loss ≤ (Engine.applyEod s price Engine.Dir.long tod).position.stop_loss := by
  simp only [Engine.applyEod]
  split_ifs with h1 h2
  · exact le_of_lt h2
  · exact le_refl _
  · exact le_refl _

theorem Engine.applyEod_stop_mono_short (s : Engine.EngineState) (price tod : ℚ) :
    (Engine.applyEod s price Engine.Dir.short tod).position.stop_loss ≤ s.position.stop_loss := by
  simp only [Engine.applyEod]
  split_ifs with h1 h2
  · exact le_of_lt h2
  · exact le_refl _
  · exact le_refl _

theorem Engine.manageLongTail_eq (p : Engine.EngineState × List Engine.OrderEvent)
    (inp : Engine.Inp) (eod : Bool) :
    Engine.manageLongTail p inp eod =
      if p.1.position.target_poc ≤ inp.bar.close then
        ((Engine.closePosition p.1 inp).1, p.2 ++ (Engine.closePosition p.1 inp).2)
      else if eod = true then
        (Engine.applyEod p.1 inp.bar.close Engine.Dir.long inp.tod, p.2)
      else p := by
  obtain ⟨s, ords⟩ := p
  rfl

theorem Engine.manageShortTail_eq (p : Engine.EngineState × List Engine.OrderEvent)
    (inp : Engine.Inp) (eod : Bool) :
    Engine.manageShortTail p inp eod =
      if inp.bar.close ≤ p.1.position.target_poc then
        ((Engine.closePosition p.1 inp).1, p.2 ++ (Engine.closePosition p.1 inp).2)
      else if eod = true then
        (Engine.applyEod p.1 inp.bar.close Engine.Dir.short inp.tod, p.2)
      else p := by
  obtain ⟨s, ords⟩ := p
  rfl

theorem Engine.partialStepLong_one (s : Engine.EngineState) (price : ℚ)
    (h1 : s.position.remaining_quantity = 1) :
    Engine.partialStepLong s price = (s, []) := by
  unfold Engine.partialStepLong
  split_ifs with h2 h3
  · exfalso
    rw [h1] at h3
    exact absurd h3 (by decide)
  · rfl
  · rfl

theorem Engine.partialStepShort_one (s : Engine.EngineState) (price : ℚ)
    (h1 : s.position.remaining_quantity = 1) :
    Engine.partialStepShort s price = (s, []) := by
  unfold Engine.partialStepShort
  split_ifs with h2 h3
  · exfalso
    rw [h1] at h3
    exact absurd h3 (by decide)
  · rfl
  · rfl

/-- C10: with exactly one remaining contract, the midpoint scale-out block
never fires: `remaining // 2 = 0`, so the partial step places no order and
changes nothing; consequently a managed one-lot position whose stop and POC
target are not hit keeps `remaining_quantity = 1` and `took_partial = false`
and emits no order, for long and short alike. -/
theorem C10_one_lot_skips_scaleout (s : Engine.EngineState) (inp : Engine.Inp)
    (eod : Bool) (h1 : s.position.remaining_quantity = 1)
    (htp : s.position.took_part = false) :
    (Engine.partialStepLong s inp.bar.close = (s, [])
      ∧ Engine.partialStepShort s inp.bar.close = (s, []))
    ∧ (s.position.stop_loss < inp.bar.close → inp.bar.close < s.position.target_poc →
        (Engine.manageLong s inp eod).2 = []
        ∧ (Engine.manageLong s inp eod).1.position.remaining_quantity = 1
        ∧ (Engine.manageLong s inp eod).1.position.took_part = false)
    ∧ (inp.bar.close < s.position.stop_loss → s.position.target_poc < inp.bar.close →
        (Engine.manageShort s inp eod).2 = []
        ∧ (Engine.manageShort s inp eod).1.position.remaining_quantity = 1
        ∧ (Engine.manageShort s inp eod).1.position.took_part = false) := by
  refine ⟨⟨Engine.partialStepLong_one s inp.bar.close h1,
           Engine.partialStepShort_one s inp.bar.close h1⟩, ?_, ?_⟩
  · intro hstop htarget
    obtain ⟨-, -, -, hbtook, hbrem, -, hbpoc, -⟩ :=
      Engine.breakevenStepLong_fields s inp.bar.close
    unfold Engine.manageLong
    rw [if_neg (not_le.mpr hstop),
      Engine.partialStepLong_one (Engine.breakevenStepLong s inp.bar.close) inp.bar.close
        (by rw [hbrem, h1]),
      Engine.manageLongTail_eq]
    rw [if_neg (by rw [hbpoc]; exact not_le.mpr htarget)]
    by_cases heod : eod = true
    · rw [if_pos heod]
      obtain ⟨-, -, -, -, hetook, herem, -⟩ :=
        Engine.applyEod_fields (Engine.breakevenStepLong s inp.bar.close) inp.bar.close
          Engine.Dir.long inp.tod
      exact ⟨rfl, by rw [herem, hbrem, h1], by rw [hetook, hbtook, htp]⟩
    · rw [if_neg heod]
      exact ⟨rfl, by rw [hbrem, h1], by rw [hbtook, htp]⟩
  · intro hstop htarget
    obtain ⟨-, -, -, hbtook, hbrem, -, hbpoc, -⟩ :=
      Engine.breakevenStepShort_fields s inp.bar.close
    unfold Engine.manageShort
    rw [if_neg (not_le.mpr hstop),
      Engine.partialStepShort_one (Engine.breakevenStepShort s inp.bar.close) inp.bar.close
        (by rw [hbrem, h1]),
      Engine.manageShortTail_eq]
    rw [if_neg (by rw [hbpoc]; exact not_le.mpr htarget)]
    by_cases heod : eod = true
    · rw [if_pos heod]
      obtain ⟨-, -, -, -, hetook, herem, -⟩ :=
        Engine.applyEod_fields (Engine.breakevenStepShort s inp.bar.close) inp.bar.close
          Engine.Dir.short inp.tod
      exact ⟨rfl, by rw [herem, hbrem, h1], by rw [hetook, hbtook, htp]⟩
    · rw [if_neg heod]
      exact ⟨rfl, by rw [hbrem, h1], by rw [hbtook, htp]⟩

/-- A one-lot long position sitting past the IB midpoint with stop and POC
target not hit, used as a witness input for the one-contract scale-out fact. -/
def oneLotLongState : Engine.EngineState :=
  { position :=
      { is_long := true, is_short := false, entry_price := 4484 + 1/2,
        stop_loss := 4479 + 1/2, target_poc := 4497, target_midpoint := 4490,
        quantity := 1, remaining_quantity := 1, at_breakeven := false,
        took_part := false, setup_score := 5 },
    stats := Engine.initStats }

/-- A 2:00 PM bar at 4491, above the midpoint of `oneLotLongState` but below
its POC target and above its stop. -/
def oneLotLongInp : Engine.Inp :=
  { bar := ⟨4492, 4490, 4491, 100⟩, date := 0, tod := 840,
    ib_is_ready := true, poc_is_ready := true, ib_complete := true,
    ibh := some 4500, ibl := some 4490, ib_range := some 10,
    ib_midpoint := some 4495, ib_classification := some IB.IBClass.medium,
    ib_volume := 60000, poc := some 4497, any_bullish := false,
    any_bearish := false, is_trend_day_likely := false,
    portfolio_value := 100000, sec_close := 4491 }

/-- Witness for C10 at a concrete one-lot long above the midpoint. -/
theorem C10_one_lot_skips_scaleout_witness :
    oneLotLongState.position.remaining_quantity = 1
    ∧ oneLotLongState.position.took_part = false
    ∧ oneLotLongState.position.stop_loss < oneLotLongInp.bar.close
    ∧ oneLotLongInp.bar.close < oneLotLongState.position.target_poc
    ∧ ((Engine.manageLong oneLotLongState oneLotLongInp false).2 = []
      ∧ (Engine.manageLong oneLotLongState oneLotLongInp false).1.position.remaining_quantity = 1
      ∧ (Engine.manageLong oneLotLongState oneLotLongInp false).1.position.took_part = false) :=
  ⟨rfl, rfl, by norm_num [oneLotLongState, oneLotLongInp],
   by norm_num [oneLotLongState, oneLotLongInp],
   (C10_one_lot_skips_scaleout oneLotLongState oneLotLongInp false rfl rfl).2.1
     (by norm_num [oneLotLongState, oneLotLongInp])
     (by norm_num [oneLotLongState, oneLotLongInp])⟩

theorem Engine.breakevenStepLong_cases (s : Engine.EngineState) (price : ℚ) :
    (s.position.at_breakeven = false
      ∧ s.position.entry_price - s.position.stop_loss ≤ price - s.position.entry_price
      ∧ (Engine.breakevenStepLong s price).position.at_breakeven = true
      ∧ (Engine.breakevenStepLong s price).position.stop_loss = s.position.entry_price)
    ∨ (¬(s.position.at_breakeven = false
          ∧ s.position.entry_price - s.position.stop_loss ≤ price - s.position.entry_price)
        ∧ Engine.breakevenStepLong s price = s) := by
  unfold Engine.breakevenStepLong
  split_ifs with h
  · exact Or.inl ⟨h.1, h.2, rfl, rfl⟩
  · exact Or.inr ⟨h, rfl⟩

theorem Engine.breakevenStepShort_cases (s : Engine.EngineState) (price : ℚ) :
    (s.position.at_breakeven = false
      ∧ s.position.stop_loss - s.position.entry_price ≤ s.position.entry_price - price
      ∧ (Engine.breakevenStepShort s price).position.at_breakeven = true
      ∧ (Engine.breakevenStepShort s price).position.stop_loss = s.position.entry_price)
    ∨ (¬(s.position.at_breakeven = false
          ∧ s.position.stop_loss - s.position.entry_price ≤ s.position.entry_price - price)
        ∧ Engine.breakevenStepShort s price = s) := by
  unfold Engine.breakevenStepShort
  split_ifs with h
  · exact Or.inl ⟨h.1, h.2, rfl, rfl⟩
  · exact Or.inr ⟨h, rfl⟩

theorem Engine.handlePreMarket_position (s : Engine.EngineState) (inp : Engine.Inp) :
    (Engine.handlePreMarket s inp).position = s.position := by
  unfold Engine.handlePreMarket
  split_ifs
  · rfl
  · rfl

theorem Engine.manageLong_breakeven (s : Engine.EngineState) (inp : Engine.Inp) (eod : Bool)
    (hinv : s.position.at_breakeven = true → s.position.entry_price ≤ s.position.stop_loss) :
    (Engine.manageLong s inp eod).1.position.is_long = true →
      ((Engine.manageLong s inp eod).1.position.entry_price = s.position.entry_price
      ∧ ((Engine.manageLong s inp eod).1.position.at_breakeven = true →
          (Engine.manageLong s inp eod).1.position.entry_price
            ≤ (Engine.manageLong s inp eod).1.position.stop_loss)
      ∧ (s.position.at_breakeven = true →
          (Engine.manageLong s inp eod).1.position.at_breakeven = true)
      ∧ (s.position.at_breakeven = false →
          s.position.entry_price - s.position.stop_loss
            ≤ inp.bar.close - s.position.entry_price →
          (Engine.manageLong s inp eod).1.position.at_breakeven = true)) := by
  obtain ⟨-, -, hbe, -, -, -, -, -⟩ := Engine.breakevenStepLong_fields s inp.bar.close
  obtain ⟨-, -, hpe, hps, hpb, -, -⟩ :=
    Engine.partialStepLong_fields (Engine.breakevenStepLong s inp.bar.close) inp.bar.close
  have tcases := Engine.breakevenStepLong_cases s inp.bar.close
  have ht_bk_mono : s.position.at_breakeven = true →
      (Engine.breakevenStepLong s inp.bar.close).position.at_breakeven = true := by
    intro hb
    rcases tcases with ⟨hf, -, -, -⟩ | ⟨-, heq⟩
    · rw [hb] at hf
      exact absurd hf (by decide)
    · rw [heq]
      exact hb
  have ht_trigger : s.position.at_breakeven = false →
      s.position.entry_price - s.position.stop_loss ≤ inp.bar.close - s.position.entry_price →
      (Engine.breakevenStepLong s inp.bar.close).position.at_breakeven = true := by
    intro hb htr
    rcases tcases with ⟨-, -, hset, -⟩ | ⟨hnot, -⟩
    · exact hset
    · exact absurd ⟨hb, htr⟩ hnot
  have ht_inv : (Engine.breakevenStepLong s inp.bar.close).position.at_breakeven = true →
      (Engine.breakevenStepLong s inp.bar.close).position.entry_price
        ≤ (Engine.breakevenStepLong s inp.bar.close).position.stop_loss := by
    intro hb
    rcases tcases with ⟨-, -, -, hset⟩ | ⟨-, heq⟩
    · rw [hset, hbe]
    · rw [heq] at hb ⊢
      exact hinv hb
  unfold Engine.manageLong
  split_ifs with hstop
  · intro habs
    simp [Engine.closePosition, Engine.initPosition] at habs
  · rw [Engine.manageLongTail_eq]
    split_ifs with htgt heod
    · intro habs
      simp [Engine.closePosition, Engine.initPosition] at habs
    · obtain ⟨-, -, hee, heb, -, -, -⟩ :=
        Engine.applyEod_fields
          (Engine.partialStepLong (Engine.breakevenStepLong s inp.bar.close) inp.bar.close).1
          inp.bar.close Engine.Dir.long inp.tod
      have hmono := Engine.applyEod_stop_mono_long
        (Engine.partialStepLong (Engine.breakevenStepLong s inp.bar.close) inp.bar.close).1
        inp.bar.close inp.tod
      intro _
      refine ⟨by rw [hee, hpe, hbe], ?_, ?_, ?_⟩
      · intro hb
        rw [heb, hpb] at hb
        have hti := ht_inv hb
        rw [hps] at hmono
        rw [hee, hpe]
        exact le_trans hti hmono
      · intro hb
        rw [heb, hpb]
        exact ht_bk_mono hb
      · intro hb htr
        rw [heb, hpb]
        exact ht_trigger hb htr
    · intro _
      refine ⟨by rw [hpe, hbe], ?_, ?_, ?_⟩
      · intro hb
        rw [hpb] at hb
        rw [hpe, hps]
        exact ht_inv hb
      · intro hb
        rw [hpb]
        exact ht_bk_mono hb
      · intro hb htr
        rw [hpb]
        exact ht_trigger hb htr

theorem Engine.manageShort_breakeven (s : Engine.EngineState) (inp : Engine.Inp) (eod : Bool)
    (hinv : s.position.at_breakeven = true → s.position.stop_loss ≤ s.position.entry_price) :
    (Engine.manageShort s inp eod).1.position.is_short = true →
      ((Engine.manageShort s inp eod).1.position.entry_price = s.position.entry_price
      ∧ ((Engine.manageShort s inp eod).1.position.at_breakeven = true →
          (Engine.manageShort s inp eod).1.position.stop_loss
            ≤ (Engine.manageShort s inp eod).1.position.entry_price)
      ∧ (s.position.at_breakeven = true →
          (Engine.manageShort s inp eod).1.position.at_breakeven = true)
      ∧ (s.position.at_breakeven = false →
          s.position.stop_loss - s.position.entry_price
            ≤ s.position.entry_price - inp.bar.close →
          (Engine.manageShort s inp eod).1.position.at_breakeven = true)) := by
  obtain ⟨-, -, hbe, -, -, -, -, -⟩ := Engine.breakevenStepShort_fields s inp.bar.close
  obtain ⟨-, -, hpe, hps, hpb, -, -⟩ :=
    Engine.partialStepShort_fields (Engine.breakevenStepShort s inp.bar.close) inp.bar.close
  have tcases := Engine.breakevenStepShort_cases s inp.bar.close
  have ht_bk_mono : s.position.at_breakeven = true →
      (Engine.breakevenStepShort s inp.bar.close).position.at_breakeven = true := by
    intro hb
    rcases tcases with ⟨hf, -, -, -⟩ | ⟨-, heq⟩
    · rw [hb] at hf
      exact absurd hf (by decide)
    · rw [heq]
      exact hb
  have ht_trigger : s.position.at_breakeven = false →
      s.position.stop_loss - s.position.entry_price ≤ s.position.entry_price - inp.bar.close →
      (Engine.breakevenStepShort s inp.bar.close).position.at_breakeven = true := by
    intro hb htr
    rcases tcases with ⟨-, -, hset, -⟩ | ⟨hnot, -⟩
    · exact hset
    · exact absurd ⟨hb, htr⟩ hnot
  have ht_inv : (Engine.breakevenStepShort s inp.bar.close).position.at_breakeven = true →
      (Engine.breakevenStepShort s inp.bar.close).position.stop_loss
        ≤ (Engine.breakevenStepShort s inp.bar.close).position.entry_price := by
    intro hb
    rcases tcases with ⟨-, -, -, hset⟩ | ⟨-, heq⟩
    · rw [hset, hbe]
    · rw [heq] at hb ⊢
      exact hinv hb
  unfold Engine.manageShort
  split_ifs with hstop
  · intro habs
    simp [Engine.closePosition, Engine.initPosition] at habs
  · rw [Engine.manageShortTail_eq]
    split_ifs with htgt heod
    · intro habs
      simp [Engine.closePosition, Engine.initPosition] at habs
    · obtain ⟨-, -, hee, heb, -, -, -⟩ :=
        Engine.applyEod_fields
          (Engine.partialStepShort (Engine.breakevenStepShort s inp.bar.close) inp.bar.close).1
          inp.bar.close Engine.Dir.short inp.tod
      have hmono := Engine.applyEod_stop_mono_short
        (Engine.partialStepShort (Engine.breakevenStepShort s inp.bar.close) inp.bar.close).1
        inp.bar.close inp.tod
      intro _
      refine ⟨by rw [hee, hpe, hbe], ?_, ?_, ?_⟩
      · intro hb
        rw [heb, hpb] at hb
        have hti := ht_inv hb
        rw [hps] at hmono
        rw [hee, hpe]
        exact le_trans hmono hti
      · intro hb
        rw [heb, hpb]
        exact ht_bk_mono hb
      · intro hb htr
        rw [heb, hpb]
        exact ht_trigger hb htr
    · intro _
      refine ⟨by rw [hpe, hbe], ?_, ?_, ?_⟩
      · intro hb
        rw [hpb] at hb
        rw [hpe, hps]
        exact ht_inv hb
      · intro hb
        rw [hpb]
        exact ht_bk_mono hb
      · intro hb htr
        rw [hpb]
        exact ht_trigger hb htr

/-- C5: within an open trade the breakeven move is one-way.  For a long
position: processing any bar keeps the entry price unchanged; if the
breakeven flag is set afterwards the stop is at or above the entry (so the
stop is never moved back below entry, whatever the price does, including the
EOD tightening); the flag is monotone (never cleared while the position
stays open); and in the TRADING or EOD phases, once unrealized profit
reaches the current stop distance the flag is set.  Symmetrically for a
short position with the stop at or below entry. -/
theorem C5_breakeven_one_way (s : Engine.EngineState) (inp : Engine.Inp) :
    ((s.position.is_long = true →
      (s.position.at_breakeven = true → s.position.entry_price ≤ s.position.stop_loss) →
      (Engine.step s inp).1.position.is_long = true →
        ((Engine.step s inp).1.position.entry_price = s.position.entry_price
        ∧ ((Engine.step s inp).1.position.at_breakeven = true →
            (Engine.step s inp).1.position.entry_price
              ≤ (Engine.step s inp).1.position.stop_loss)
        ∧ (s.position.at_breakeven = true →
            (Engine.step s inp).1.position.at_breakeven = true)
        ∧ ((Engine.determinePhase inp.tod = Engine.Phase.trading
              ∨ Engine.determinePhase inp.tod = Engine.Phase.eodManagement) →
            s.position.at_breakeven = false →
            s.position.entry_price - s.position.stop_loss
              ≤ inp.bar.close - s.position.entry_price →
            (Engine.step s inp).1.position.at_breakeven = true)))
    ∧ (s.position.is_long = false → s.position.is_short = true →
      (s.position.at_breakeven = true → s.position.stop_loss ≤ s.position.entry_price) →
      (Engine.step s inp).1.position.is_short = true →
        ((Engine.step s inp).1.position.entry_price = s.position.entry_price
        ∧ ((Engine.step s inp).1.position.at_breakeven = true →
            (Engine.step s inp).1.position.stop_loss
              ≤ (Engine.step s inp).1.position.entry_price)
        ∧ (s.position.at_breakeven = true →
            (Engine.step s inp).1.position.at_breakeven = true)
        ∧ ((Engine.determinePhase inp.tod = Engine.Phase.trading
              ∨ Engine.determinePhase inp.tod = Engine.Phase.eodManagement) →
            s.position.at_breakeven = false →
            s.position.stop_loss - s.position.entry_price
              ≤ s.position.entry_price - inp.bar.close →
            (Engine.step s inp).1.position.at_breakeven = true)))) := by
  constructor
  · intro hL hinv hstill
    cases hph : Engine.determinePhase inp.tod with
    | preMarket =>
      rw [Engine.step_preMarket s inp hph] at hstill ⊢
      have hpm := Engine.handlePreMarket_position s inp
      refine ⟨by rw [hpm], by rw [hpm]; exact hinv, by rw [hpm]; exact fun hb => hb, ?_⟩
      intro hphand
      rcases hphand with h | h
      · exact absurd h (by simp)
      · exact absurd h (by simp)
    | ibFormation =>
      rw [Engine.step_ibFormation s inp hph] at hstill ⊢
      refine ⟨rfl, hinv, fun hb => hb, ?_⟩
      intro hphand
      rcases hphand with h | h
      · exact absurd h (by simp)
      · exact absurd h (by simp)
    | trading =>
      rw [Engine.step_trading s inp hph, if_pos (Or.inl hL)] at hstill ⊢
      obtain ⟨hul, hus, hue, hust, hub, -, -, -⟩ := Engine.updatePocTarget_fields s inp
      unfold Engine.managePosition at hstill ⊢
      rw [if_pos (by rw [hul]; exact hL)] at hstill ⊢
      obtain ⟨k1, k2, k3, k4⟩ :=
        Engine.manageLong_breakeven (Engine.updatePocTarget s inp) inp false
          (by rw [hub, hue, hust]; exact hinv) hstill
      refine ⟨by rw [k1]; exact hue, k2, ?_, ?_⟩
      · intro hb
        exact k3 (by rw [hub]; exact hb)
      · intro _ hb htr
        exact k4 (by rw [hub]; exact hb) (by rw [hue, hust]; exact htr)
    | eodManagement =>
      rw [Engine.step_eod s inp hph, if_pos (Or.inl hL)] at hstill ⊢
      obtain ⟨hul, hus, hue, hust, hub, -, -, -⟩ := Engine.updatePocTarget_fields s inp
      unfold Engine.managePosition at hstill ⊢
      rw [if_pos (by rw [hul]; exact hL)] at hstill ⊢
      obtain ⟨k1, k2, k3, k4⟩ :=
        Engine.manageLong_breakeven (Engine.updatePocTarget s inp) inp true
          (by rw [hub, hue, hust]; exact hinv) hstill
      refine ⟨by rw [k1]; exact hue, k2, ?_, ?_⟩
      · intro hb
        exact k3 (by rw [hub]; exact hb)
      · intro _ hb htr
        exact k4 (by rw [hub]; exact hb) (by rw [hue, hust]; exact htr)
    | closed =>
      rw [Engine.step_closed s inp hph, if_pos (Or.inl hL)] at hstill
      exact absurd hstill (by simp [Engine.closePosition, Engine.initPosition])
  · intro hNL hS hinv hstill
    cases hph : Engine.determinePhase inp.tod with
    | preMarket =>
      rw [Engine.step_preMarket s inp hph] at hstill ⊢
      have hpm := Engine.handlePreMarket_position s inp
      refine ⟨by rw [hpm], by rw [hpm]; exact hinv, by rw [hpm]; exact fun hb => hb, ?_⟩
      intro hphand
      rcases hphand with h | h
      · exact absurd h (by simp)
      · exact absurd h (by simp)
    | ibFormation =>
      rw [Engine.step_ibFormation s inp hph] at hstill ⊢
      refine ⟨rfl, hinv, fun hb => hb, ?_⟩
      intro hphand
      rcases hphand with h | h
      · exact absurd h (by simp)
      · exact absurd h (by simp)
    | trading =>
      rw [Engine.step_trading s inp hph, if_pos (Or.inr hS)] at hstill ⊢
      obtain ⟨hul, hus, hue, hust, hub, -, -, -⟩ := Engine.updatePocTarget_fields s inp
      unfold Engine.managePosition at hstill ⊢
      rw [if_neg (by rw [hul, hNL]; simp), if_pos (by rw [hus]; exact hS)] at hstill ⊢
      obtain ⟨k1, k2, k3, k4⟩ :=
        Engine.manageShort_breakeven (Engine.updatePocTarget s inp) inp false
          (by rw [hub, hue, hust]; exact hinv) hstill
      refine ⟨by rw [k1]; exact hue, k2, ?_, ?_⟩
      · intro hb
        exact k3 (by rw [hub]; exact hb)
      · intro _ hb htr
        exact k4 (by rw [hub]; exact hb) (by rw [hue, hust]; exact htr)
    | eodManagement =>
      rw [Engine.step_eod s inp hph, if_pos (Or.inr hS)] at hstill ⊢
      obtain ⟨hul, hus, hue, hust, hub, -, -, -⟩ := Engine.updatePocTarget_fields s inp
      unfold Engine.managePosition at hstill ⊢
      rw [if_neg (by rw [hul, hNL]; simp), if_pos (by rw [hus]; exact hS)] at hstill ⊢
      obtain ⟨k1, k2, k3, k4⟩ :=
        Engine.manageShort_breakeven (Engine.updatePocTarget s inp) inp true
          (by rw [hub, hue, hust]; exact hinv) hstill
      refine ⟨by rw [k1]; exact hue, k2, ?_, ?_⟩
      · intro hb
        exact k3 (by rw [hub]; exact hb)
      · intro _ hb htr
        exact k4 (by rw [hub]; exact hb) (by rw [hue, hust]; exact htr)
    | closed =>
      rw [Engine.step_closed s inp hph, if_pos (Or.inr hS)] at hstill
      exact absurd hstill (by simp [Engine.closePosition, Engine.initPosition])

/-- A 2:00 PM bar closing at 4489.50, exactly the breakeven trigger of the
spec scenario for `sampleLongState` (entry 4484.50, stop 4479.50). -/
def c5TrigInp : Engine.Inp :=
  { bar := ⟨4490, 4486, 4489 + 1/2, 100⟩, date := 0, tod := 840,
    ib_is_ready := true, poc_is_ready := true, ib_complete := true,
    ibh := some 4500, ibl := some 4490, ib_range := some 10,
    ib_midpoint := some 4495, ib_classification := some IB.IBClass.medium,
    ib_volume := 60000, poc := some 4497, any_bullish := false,
    any_bearish := false, is_trend_day_likely := false,
    portfolio_value := 100000, sec_close := 4489 + 1/2 }

/-- Witness for C5 at the spec scenario: entry 4484.50, stop 4479.50, price
reaching 4489.50 in the TRADING phase sets the breakeven flag. -/
theorem C5_breakeven_one_way_witness :
    sampleLongState.position.is_long = true
    ∧ sampleLongState.position.at_breakeven = false
    ∧ (Engine.step sampleLongState c5TrigInp).1.position.is_long = true
    ∧ Engine.determinePhase c5TrigInp.tod = Engine.Phase.trading
    ∧ sampleLongState.position.entry_price - sampleLongState.position.stop_loss
        ≤ c5TrigInp.bar.close - sampleLongState.position.entry_price
    ∧ (Engine.step sampleLongState c5TrigInp).1.position.at_breakeven = true := by
  have hphase : Engine.determinePhase c5TrigInp.tod = Engine.Phase.trading := by
    norm_num [Engine.determinePhase, c5TrigInp, Engine.marketOpen, Engine.ibEnd,
      Engine.newEntryCutoff]
  have hstill : (Engine.step sampleLongState c5TrigInp).1.position.is_long = true := by
    rw [Engine.step_trading sampleLongState c5TrigInp hphase]
    norm_num [Engine.managePosition, Engine.updatePocTarget, Engine.manageLong,
      Engine.breakevenStepLong, Engine.partialStepLong, Engine.manageLongTail,
      sampleLongState, c5TrigInp]
  refine ⟨rfl, rfl, hstill, hphase, by norm_num [sampleLongState, c5TrigInp], ?_⟩
  exact ((C5_breakeven_one_way sampleLongState c5TrigInp).1 rfl
      (fun h => absurd h (by norm_num [sampleLongState])) hstill).2.2.2
    (Or.inl hphase) rfl (by norm_num [sampleLongState, c5TrigInp])

theorem Engine.abs_sub_stopOf (dir : Engine.Dir) (price d : ℚ) (hd : 0 ≤ d) :
    |price - Engine.stopOf dir price d| = d := by
  cases dir with
  | long =>
    show |price - (price - d)| = d
    rw [sub_sub_cancel]
    exact abs_of_nonneg hd
  | short =>
    show |price - (price + d)| = d
    have h : price - (price + d) = -d := by ring
    rw [h, abs_neg]
    exact abs_of_nonneg hd

theorem Engine.entryStage3_cases (s : Engine.EngineState) (inp : Engine.Inp)
    (dir : Engine.Dir) (e stopDist target : ℚ) (hd : 0 < stopDist) :
    Engine.entryStage3 s inp dir e stopDist target = (s, []) ∨
    (0 < Engine.profitDistOf dir inp.bar.close target
     ∧ Engine.calculatePositionSize stopDist inp.ib_classification inp.portfolio_value ≠ 0
     ∧ Engine.entryStage3 s inp dir e stopDist target
        = Engine.entryApply dir inp.bar.close (Engine.stopOf dir inp.bar.close stopDist)
            target inp
            (Engine.calculateSetupScore inp e (Engine.dirConf inp dir)
              (Engine.volumeDeclining inp)
              (Engine.profitDistOf dir inp.bar.close target / stopDist)) s
            (Engine.calculatePositionSize stopDist inp.ib_classification
              inp.portfolio_value)) := by
  unfold Engine.entryStage3
  split_ifs with h1 h2 h3
  · exact Or.inl rfl
  · exact Or.inl rfl
  · exact Or.inl rfl
  · unfold Engine.executeEntry
    rw [Engine.abs_sub_stopOf dir inp.bar.close stopDist (le_of_lt hd)]
    split_ifs with h4
    · exact Or.inl rfl
    · exact Or.inr ⟨not_le.mp h1, h4, rfl⟩

theorem Engine.entryStage2_some (s : Engine.EngineState) (inp : Engine.Inp)
    (dir : Engine.Dir) (e ibr : ℚ) :
    Engine.entryStage2 s inp dir (some e) ibr =
      (if e = 0 then (s, [])
      else if e < Engine.minExtension ∨ Engine.maxExtension < e then (s, [])
      else if Engine.dirConf inp dir = false then (s, [])
      else match inp.poc with
        | none => (s, [])
        | some target =>
          Engine.entryStage3 s inp dir e (ibr * Engine.stopIbMultiplier) target) := rfl

theorem Engine.entryStage2_cases (s : Engine.EngineState) (inp : Engine.Inp)
    (dir : Engine.Dir) (extOpt : Option ℚ) (ibr : ℚ) :
    Engine.entryStage2 s inp dir extOpt ibr = (s, []) ∨
    ∃ e target, extOpt = some e ∧ Engine.minExtension ≤ e ∧ inp.poc = some target
      ∧ Engine.entryStage2 s inp dir extOpt ibr
          = Engine.entryStage3 s inp dir e (ibr * Engine.stopIbMultiplier) target := by
  cases extOpt with
  | none => exact Or.inl rfl
  | some e =>
    rw [Engine.entryStage2_some]
    split_ifs with h1 h2 h3
    · exact Or.inl rfl
    · exact Or.inl rfl
    · exact Or.inl rfl
    · cases hp : inp.poc with
      | none => exact Or.inl rfl
      | some target =>
        push_neg at h2
        exact Or.inr ⟨e, target, rfl, h2.1, rfl, rfl⟩

theorem Engine.checkEntrySignals_core (s : Engine.EngineState) (inp : Engine.Inp)
    (ibh ibl ibr : ℚ)
    (h1 : ¬(inp.ib_is_ready = false ∨ inp.poc_is_ready = false))
    (h2 : ¬inp.ib_complete = false) (h3 : ¬inp.is_trend_day_likely = true)
    (h4 : ¬s.stats.daily_pnl ≤ -(Engine.maxDailyRisk * inp.portfolio_value))
    (hh : inp.ibh = some ibh) (hl : inp.ibl = some ibl)
    (hr : inp.ib_range = some ibr) :
    Engine.checkEntrySignals s inp =
      (if ibr = 0 then (s, [])
      else if ibh < inp.bar.close then
        Engine.entryStage2 s inp Engine.Dir.short
          (Engine.getExtensionAmount inp inp.bar.close Engine.Dir.short) ibr
      else if inp.bar.close < ibl then
        Engine.entryStage2 s inp Engine.Dir.long
          (Engine.getExtensionAmount inp inp.bar.close Engine.Dir.long) ibr
      else (s, [])) := by
  unfold Engine.checkEntrySignals
  rw [if_neg h1, if_neg h2, if_neg h3, if_neg h4, hh, hl, hr]

/-- Case analysis of one `_check_entry_signals` evaluation: either every
filter aborts with the state unchanged and no order, or the entry goes all
the way through `_execute_entry` with a positive stop distance, a positive
profit distance and a nonzero position size. -/
theorem Engine.checkEntry_atomic (s : Engine.EngineState) (inp : Engine.Inp) :
    Engine.checkEntrySignals s inp = (s, []) ∨
    ∃ dir stopDist target score,
      0 < stopDist
      ∧ 0 < Engine.profitDistOf dir inp.bar.close target
      ∧ Engine.calculatePositionSize stopDist inp.ib_classification inp.portfolio_value ≠ 0
      ∧ Engine.checkEntrySignals s inp
          = Engine.entryApply dir inp.bar.close (Engine.stopOf dir inp.bar.close stopDist)
              target inp score s
              (Engine.calculatePositionSize stopDist inp.ib_classification
                inp.portfolio_value) := by
  by_cases h1 : inp.ib_is_ready = false ∨ inp.poc_is_ready = false
  · exact Or.inl (by unfold Engine.checkEntrySignals; rw [if_pos h1])
  by_cases h2 : inp.ib_complete = false
  · exact Or.inl (by unfold Engine.checkEntrySignals; rw [if_neg h1, if_pos h2])
  by_cases h3 : inp.is_trend_day_likely = true
  · exact Or.inl (by unfold Engine.checkEntrySignals; rw [if_neg h1, if_neg h2, if_pos h3])
  by_cases h4 : s.stats.daily_pnl ≤ -(Engine.maxDailyRisk * inp.portfolio_value)
  · exact Or.inl
      (by unfold Engine.checkEntrySignals; rw [if_neg h1, if_neg h2, if_neg h3, if_pos h4])
  cases hh : inp.ibh with
  | none =>
    exact Or.inl
      (by unfold Engine.checkEntrySignals; rw [if_neg h1, if_neg h2, if_neg h3, if_neg h4, hh])
  | some ibh =>
    cases hl : inp.ibl with
    | none =>
      exact Or.inl (by
        unfold Engine.checkEntrySignals
        rw [if_neg h1, if_neg h2, if_neg h3, if_neg h4, hh, hl])
    | some ibl =>
      cases hr : inp.ib_range with
      | none =>
        exact Or.inl (by
          unfold Engine.checkEntrySignals
          rw [if_neg h1, if_neg h2, if_neg h3, if_neg h4, hh, hl, hr])
      | some ibr =>
        rw [Engine.checkEntrySignals_core s inp ibh ibl ibr h1 h2 h3 h4 hh hl hr]
        split_ifs with h5 h6 h7
        · exact Or.inl rfl
        · have hx : Engine.getExtensionAmount inp inp.bar.close Engine.Dir.short
              = some ((inp.bar.close - ibh) / ibr) := by
            simp only [Engine.getExtensionAmount, hr, hh]
            rw [if_neg h5, if_pos (sub_pos.mpr h6)]
          rcases Engine.entryStage2_cases s inp Engine.Dir.short
              (Engine.getExtensionAmount inp inp.bar.close Engine.Dir.short) ibr with
            hc | ⟨e, target, hesome, hemin, -, heq⟩
          · exact Or.inl hc
          · have he : e = (inp.bar.close - ibh) / ibr := by
              rw [hx] at hesome
              exact (Option.some.inj hesome).symm
            have hibrpos : 0 < ibr := by
              have hepos : (0:ℚ) < e :=
                lt_of_lt_of_le (by norm_num [Engine.minExtension]) hemin
              rw [he] at hepos
              rcases div_pos_iff.mp hepos with ⟨-, hb⟩ | ⟨ha, -⟩
              · exact hb
              · exact absurd (sub_pos.mpr h6) (not_lt.mpr (le_of_lt ha))
            have hsd : 0 < ibr * Engine.stopIbMultiplier :=
              mul_pos hibrpos (by norm_num [Engine.stopIbMultiplier])
            rcases Engine.entryStage3_cases s inp Engine.Dir.short e
                (ibr * Engine.stopIbMultiplier) target hsd with hc3 | ⟨hp3, hq3, heq3⟩
            · exact Or.inl (heq.trans hc3)
            · exact Or.inr ⟨Engine.Dir.short, ibr * Engine.stopIbMultiplier, target, _,
                hsd, hp3, hq3, heq.trans heq3⟩
        · have hx : Engine.getExtensionAmount inp inp.bar.close Engine.Dir.long
              = some ((ibl - inp.bar.close) / ibr) := by
            simp only [Engine.getExtensionAmount, hr, hl]
            rw [if_neg h5, if_pos (sub_pos.mpr h7)]
          rcases Engine.entryStage2_cases s inp Engine.Dir.long
              (Engine.getExtensionAmount inp inp.bar.close Engine.Dir.long) ibr with
            hc | ⟨e, target, hesome, hemin, -, heq⟩
          · exact Or.inl hc
          · have he : e = (ibl - inp.bar.close) / ibr := by
              rw [hx] at hesome
              exact (Option.some.inj hesome).symm
            have hibrpos : 0 < ibr := by
              have hepos : (0:ℚ) < e :=
                lt_of_lt_of_le (by norm_num [Engine.minExtension]) hemin
              rw [he] at hepos
              rcases div_pos_iff.mp hepos with ⟨-, hb⟩ | ⟨ha, -⟩
              · exact hb
              · exact absurd (sub_pos.mpr h7) (not_lt.mpr (le_of_lt ha))
            have hsd : 0 < ibr * Engine.stopIbMultiplier :=
              mul_pos hibrpos (by norm_num [Engine.stopIbMultiplier])
            rcases Engine.entryStage3_cases s inp Engine.Dir.long e
                (ibr * Engine.stopIbMultiplier) target hsd with hc3 | ⟨hp3, hq3, heq3⟩
            · exact Or.inl (heq.trans hc3)
            · exact Or.inr ⟨Engine.Dir.long, ibr * Engine.stopIbMultiplier, target, _,
                hsd, hp3, hq3, heq.trans heq3⟩
        · exact Or.inl rfl

/-- C8: an entry evaluation is atomic.  Either it aborts silently — the
position and daily stats are exactly unchanged and no order is emitted — or
the entry is applied in full: the stop distance and profit distance are
positive, the computed size is nonzero, and the position fields, the trade
counter and the single market order are all set together.  In particular a
zero/negative stop distance, a non-positive profit distance or a zero
position size always lands in the silent-abort branch. -/
theorem C8_aborted_entry_silent (s : Engine.EngineState) (inp : Engine.Inp) :
    ((Engine.checkEntrySignals s inp).1.position = s.position
      ∧ (Engine.checkEntrySignals s inp).1.stats = s.stats
      ∧ (Engine.checkEntrySignals s inp).2 = [])
    ∨ (∃ dir stopDist target,
        0 < stopDist
        ∧ 0 < Engine.profitDistOf dir inp.bar.close target
        ∧ Engine.calculatePositionSize stopDist inp.ib_classification inp.portfolio_value ≠ 0
        ∧ (Engine.checkEntrySignals s inp).1.position.quantity
            = Engine.calculatePositionSize stopDist inp.ib_classification inp.portfolio_value
        ∧ (Engine.checkEntrySignals s inp).1.position.remaining_quantity
            = Engine.calculatePositionSize stopDist inp.ib_classification inp.portfolio_value
        ∧ (Engine.checkEntrySignals s inp).1.position.entry_price = inp.bar.close
        ∧ (Engine.checkEntrySignals s inp).1.position.stop_loss
            = Engine.stopOf dir inp.bar.close stopDist
        ∧ (Engine.checkEntrySignals s inp).1.position.target_poc = target
        ∧ (Engine.checkEntrySignals s inp).1.stats.trades_taken
            = s.stats.trades_taken + 1
        ∧ (Engine.checkEntrySignals s inp).2
            = [Engine.OrderEvent.market
                (if dir = Engine.Dir.long
                  then Engine.calculatePositionSize stopDist inp.ib_classification
                    inp.portfolio_value
                  else -(Engine.calculatePositionSize stopDist inp.ib_classification
                    inp.portfolio_value))]) := by
  rcases Engine.checkEntry_atomic s inp with hc | ⟨dir, stopDist, target, score, hsd, hp, hq, heq⟩
  · rw [hc]
    exact Or.inl ⟨rfl, rfl, rfl⟩
  · rw [heq]
    exact Or.inr ⟨dir, stopDist, target, hsd, hp, hq, rfl, rfl, rfl, rfl, rfl, rfl, rfl⟩

theorem Engine.manageLong_flags (s : Engine.EngineState) (inp : Engine.Inp) (eod : Bool) :
    ((Engine.manageLong s inp eod).1.position.is_long = s.position.is_long
      ∧ (Engine.manageLong s inp eod).1.position.is_short = s.position.is_short)
    ∨ (Engine.manageLong s inp eod).1.position = Engine.initPosition := by
  unfold Engine.manageLong
  split_ifs with hstop
  · exact Or.inr rfl
  · rw [Engine.manageLongTail_eq]
    obtain ⟨hbl, hbs, -, -, -, -, -, -⟩ := Engine.breakevenStepLong_fields s inp.bar.close
    obtain ⟨hpl, hpsh, -, -, -, -, -⟩ :=
      Engine.partialStepLong_fields (Engine.breakevenStepLong s inp.bar.close) inp.bar.close
    split_ifs with htgt heod
    · exact Or.inr rfl
    · obtain ⟨hel, hes, -, -, -, -, -⟩ :=
        Engine.applyEod_fields
          (Engine.partialStepLong (Engine.breakevenStepLong s inp.bar.close) inp.bar.close).1
          inp.bar.close Engine.Dir.long inp.tod
      exact Or.inl ⟨by rw [hel, hpl, hbl], by rw [hes, hpsh, hbs]⟩
    · exact Or.inl ⟨by rw [hpl, hbl], by rw [hpsh, hbs]⟩

theorem Engine.manageShort_flags (s : Engine.EngineState) (inp : Engine.Inp) (eod : Bool) :
    ((Engine.manageShort s inp eod).1.position.is_long = s.position.is_long
      ∧ (Engine.manageShort s inp eod).1.position.is_short = s.position.is_short)
    ∨ (Engine.manageShort s inp eod).1.position = Engine.initPosition := by
  unfold Engine.manageShort
  split_ifs with hstop
  · exact Or.inr rfl
  · rw [Engine.manageShortTail_eq]
    obtain ⟨hbl, hbs, -, -, -, -, -, -⟩ := Engine.breakevenStepShort_fields s inp.bar.close
    obtain ⟨hpl, hpsh, -, -, -, -, -⟩ :=
      Engine.partialStepShort_fields (Engine.breakevenStepShort s inp.bar.close) inp.bar.close
    split_ifs with htgt heod
    · exact Or.inr rfl
    · obtain ⟨hel, hes, -, -, -, -, -⟩ :=
        Engine.applyEod_fields
          (Engine.partialStepShort (Engine.breakevenStepShort s inp.bar.close) inp.bar.close).1
          inp.bar.close Engine.Dir.short inp.tod
      exact Or.inl ⟨by rw [hel, hpl, hbl], by rw [hes, hpsh, hbs]⟩
    · exact Or.inl ⟨by rw [hpl, hbl], by rw [hpsh, hbs]⟩

theorem Engine.managePosition_flags (s : Engine.EngineState) (inp : Engine.Inp) (eod : Bool) :
    ((Engine.managePosition s inp eod).1.position.is_long = s.position.is_long
      ∧ (Engine.managePosition s inp eod).1.position.is_short = s.position.is_short)
    ∨ (Engine.managePosition s inp eod).1.position = Engine.initPosition := by
  obtain ⟨hul, hus, -, -, -, -, -, -⟩ := Engine.updatePocTarget_fields s inp
  unfold Engine.managePosition
  split_ifs with hL hS
  · rcases Engine.manageLong_flags (Engine.updatePocTarget s inp) inp eod with ⟨ha, hb⟩ | hinit
    · exact Or.inl ⟨by rw [ha, hul], by rw [hb, hus]⟩
    · exact Or.inr hinit
  · rcases Engine.manageShort_flags (Engine.updatePocTarget s inp) inp eod with ⟨ha, hb⟩ | hinit
    · exact Or.inl ⟨by rw [ha, hul], by rw [hb, hus]⟩
    · exact Or.inr hinit
  · exact Or.inl ⟨hul, hus⟩

theorem Engine.step_excl (s : Engine.EngineState) (inp : Engine.Inp)
    (hx : ¬(s.position.is_long = true ∧ s.position.is_short = true)) :
    ¬((Engine.step s inp).1.position.is_long = true
      ∧ (Engine.step s inp).1.position.is_short = true) := by
  cases hph : Engine.determinePhase inp.tod with
  | preMarket =>
    rw [Engine.step_preMarket s inp hph]
    intro hboth
    rw [Engine.handlePreMarket_position] at hboth
    exact hx ⟨hboth.1, hboth.2⟩
  | ibFormation =>
    rw [Engine.step_ibFormation s inp hph]
    exact hx
  | trading =>
    rw [Engine.step_trading s inp hph]
    split_ifs with hopen
    · rcases Engine.managePosition_flags s inp false with ⟨ha, hb⟩ | hinit
      · rw [ha, hb]
        exact hx
      · rw [hinit]
        intro hboth
        exact absurd hboth.1 (by simp [Engine.initPosition])
    · rcases Engine.checkEntry_atomic s inp with hc | ⟨dir, sd, t, sc, -, -, -, heq⟩
      · rw [hc]
        exact hx
      · rw [heq]
        push_neg at hopen
        cases dir with
        | long =>
          intro hboth
          have hs := hboth.2
          simp [Engine.entryApply] at hs
          exact hopen.2 hs
        | short =>
          intro hboth
          have hl := hboth.1
          simp [Engine.entryApply] at hl
          exact hopen.1 hl
  | eodManagement =>
    rw [Engine.step_eod s inp hph]
    split_ifs with hopen
    · rcases Engine.managePosition_flags s inp true with ⟨ha, hb⟩ | hinit
      · rw [ha, hb]
        exact hx
      · rw [hinit]
        intro hboth
        exact absurd hboth.1 (by simp [Engine.initPosition])
    · exact hx
  | closed =>
    rw [Engine.step_closed s inp hph]
    split_ifs with hopen
    · intro hboth
      exact absurd hboth.1 (by simp [Engine.closePosition, Engine.initPosition])
    · exact hx

/-- C9: in every reachable engine state the direction flags are mutually
exclusive — `is_long` and `is_short` are never both set, for any sequence of
processed bars: entries only fire from a flat position and set exactly one
flag, and every close resets both. -/
theorem C9_direction_mutually_exclusive (s : Engine.EngineState)
    (h : Engine.Reachable s) :
    ¬(s.position.is_long = true ∧ s.position.is_short = true) := by
  induction h with
  | init =>
    intro hboth
    exact absurd hboth.1 (by simp [Engine.initEngine, Engine.initPosition])
  | next s inp h ih => exact Engine.step_excl s inp ih

/-- Witness for C9 at the initial (reachable) engine state. -/
theorem C9_direction_mutually_exclusive_witness :
    ¬(Engine.initEngine.position.is_long = true
      ∧ Engine.initEngine.position.is_short = true) :=
  C9_direction_mutually_exclusive Engine.initEngine Engine.Reachable.init
